import Mathlib

set_option autoImplicit false

/-!
# Canary exporter: phase aggregation, certificate inspection, probe orchestration

Shallow embedding of `cmd/profilecli/canary_exporter.go` (namespace `CanaryExporter`) and of
the per-tenant cache of `pkg/experiment/metrics/ruler.go` (namespace `Ruler`).

Modelling conventions.

* A `time.Time` is the signed number of nanoseconds between the instant and Go's zero
  `time.Time` (January 1 of year 1, UTC); instants before the zero time are negative.
  `IsZero` and `Before` are the comparisons of such numbers.
* The durations of the aggregation loop are read in two ways. `Time.Sub`, `aggregateTrace`,
  `aggregate` and `doTrace_done` take `Sub(..).Seconds()` and `+=` as exact arithmetic on
  nanoseconds, the reading under which durations are exact time differences.
  `Time.SubGo`, `aggregateTraceWith`, `aggregateWith` and `doTrace_doneWith` are the same
  statements with the arithmetic of Go: `Sub` saturates at the bounds of `time.Duration`,
  and the float64 operations are uninterpreted (`FloatOps`).
* A Go `map[string]float64` is an association list with at most one entry per key; reading
  an absent key gives `0`, `m[k] += v` creates the key when it is absent.
* A Go runtime panic is the error side of `Except Panic`.
* Pointers into `transport.traces` are indices into the list; the nil pointer is `none`.
-/

namespace CanaryExporter

/-! ## Time -/

/-- Nanoseconds since Go's zero `time.Time`. -/
abbrev Time := Int

/-- The instant `time.Time{}`. -/
def Time.zero : Time := 0

/-- Go `t.IsZero()`. -/
def Time.IsZero (t : Time) : Bool := t == 0

/-- Go `t.Before(u)`. -/
def Time.Before (t u : Time) : Bool := decide (t < u)

/-- The exact difference `t - u`: `t.Sub(u)` when durations are taken as exact time
differences (Go's own `Sub`, which saturates, is `Time.SubGo`). -/
def Time.Sub (t u : Time) : Int := t - u

/-! ## Round-trip traces -/

/-- The struct `roundTripTrace`: timings of a single HTTP round trip
(`end_` is the field `end`). -/
structure roundTripTrace where
  tls : Bool
  start : Time
  dnsDone : Time
  connectDone : Time
  gotConn : Time
  responseStart : Time
  end_ : Time
  tlsStart : Time
  tlsDone : Time
  deriving DecidableEq

/-- The value `&roundTripTrace{}`. -/
def roundTripTrace.empty : roundTripTrace :=
  { tls := false, start := 0, dnsDone := 0, connectDone := 0, gotConn := 0,
    responseStart := 0, end_ := 0, tlsStart := 0, tlsDone := 0 }

/-- All eight timestamps of the trace are set (none is the zero time). -/
def roundTripTrace.allSet (t : roundTripTrace) : Prop :=
  t.start ≠ 0 ∧ t.dnsDone ≠ 0 ∧ t.connectDone ≠ 0 ∧ t.gotConn ≠ 0 ∧
  t.responseStart ≠ 0 ∧ t.end_ ≠ 0 ∧ t.tlsStart ≠ 0 ∧ t.tlsDone ≠ 0

instance (t : roundTripTrace) : Decidable t.allSet := by
  unfold roundTripTrace.allSet; infer_instance

/-! ## The `durations` map -/

/-- A Go `map[string]float64` (values kept exact). -/
abbrev Durations := List (String × Int)

/-- The comma-ok read `v, ok := m[k]`. -/
def mapLookup : Durations → String → Option Int
  | [], _ => none
  | (k', v) :: rest, k => if k' = k then some v else mapLookup rest k

/-- The read `m[k]`: an absent key reads as zero. -/
def mapGet (m : Durations) (k : String) : Int := (mapLookup m k).getD 0

/-- The statement `m[k] += v`. -/
def mapAdd : Durations → String → Int → Durations
  | [], k, v => [(k, 0 + v)]
  | (k', x) :: rest, k, v =>
    if k' = k then (k', x + v) :: rest else (k', x) :: mapAdd rest k v

/-! ## Phase aggregation (`doTrace`, the loop over `tt.traces`) -/

/-- One iteration of `for _, trace := range tt.traces`, with durations taken as exact time
differences, in nanoseconds (`aggregateTraceWith` is the same loop with the arithmetic of
Go). -/
def aggregateTrace (durations : Durations) (trace : roundTripTrace) : Durations :=
  let durations := mapAdd durations "resolve" (Time.Sub trace.dnsDone trace.start)
  -- Continue here if we never got a connection because a request failed.
  if Time.IsZero trace.gotConn then durations else
  let durations :=
    if trace.tls then
      mapAdd (mapAdd durations "connect" (Time.Sub trace.connectDone trace.dnsDone))
        "tls" (Time.Sub trace.tlsDone trace.tlsStart)
    else
      mapAdd durations "connect" (Time.Sub trace.gotConn trace.dnsDone)
  -- Continue here if we never got a response from the server.
  if Time.IsZero trace.responseStart then durations else
  let durations := mapAdd durations "processing" (Time.Sub trace.responseStart trace.gotConn)
  -- Continue here if we never read the full response from the server.
  if Time.IsZero trace.end_ then durations else
  mapAdd durations "transfer" (Time.Sub trace.end_ trace.responseStart)

/-- The whole loop, started from `make(map[string]float64)`. -/
def aggregate (traces : List roundTripTrace) : Durations :=
  traces.foldl aggregateTrace []

/-! ## The metrics sink -/

/-- A write to the metrics sink: `Set` on a gauge or `Observe` on a histogram, with the
metric name, the label values and the value; `gaugeSetParsed` is a `Set` with the float64
that `strconv.ParseFloat` gives for `text` (that float is not modelled). -/
inductive MetricEvent where
  | gaugeSet (metric : String) (labels : List String) (value : Int)
  | observe (metric : String) (labels : List String) (value : Int)
  | gaugeSetParsed (metric : String) (labels : List String) (text : String)
  deriving DecidableEq

/-- The loop `for phase, value := range durations`, one `Observe` per entry of the map
(Go leaves the iteration order unspecified; the list is in insertion order). -/
def observeDurations (probeName : String) (durations : Durations) : List MetricEvent :=
  durations.map fun pv =>
    MetricEvent.observe "probe_http_duration_seconds" [probeName, pv.1] pv.2

/-- What one trace adds to the total of a phase, `none` when the loop body does not touch
the phase for this trace (the reading of the loop phase by phase). -/
def phaseContribution (phase : String) (t : roundTripTrace) : Option Int :=
  if phase = "resolve" then some (Time.Sub t.dnsDone t.start)
  else if Time.IsZero t.gotConn then none
  else if phase = "connect" then
    some (if t.tls then Time.Sub t.connectDone t.dnsDone else Time.Sub t.gotConn t.dnsDone)
  else if phase = "tls" then
    (if t.tls then some (Time.Sub t.tlsDone t.tlsStart) else none)
  else if Time.IsZero t.responseStart then none
  else if phase = "processing" then some (Time.Sub t.responseStart t.gotConn)
  else if Time.IsZero t.end_ then none
  else if phase = "transfer" then some (Time.Sub t.end_ t.responseStart)
  else none

/-! ## The instrumented transport -/

/-- A Go runtime panic. -/
inductive Panic where
  | nilPointerDereference
  | indexOutOfRange
  deriving DecidableEq

instance {ε α : Type} [DecidableEq ε] [DecidableEq α] : DecidableEq (Except ε α) :=
  fun x y =>
    match x, y with
    | Except.ok a, Except.ok b =>
      if h : a = b then isTrue (by rw [h]) else isFalse (fun e => h (by cases e; rfl))
    | Except.error a, Except.error b =>
      if h : a = b then isTrue (by rw [h]) else isFalse (fun e => h (by cases e; rfl))
    | Except.ok _, Except.error _ => isFalse (fun e => by cases e)
    | Except.error _, Except.ok _ => isFalse (fun e => by cases e)

/-- The struct `transport`: `traces` holds the traces of the round trips made so far,
`current` points at one of them (an index into `traces`) or is nil, `bodySize` is the atomic
byte counter. The wrapped `Transport` and the `metrics` sink are passed where they are used. -/
structure transport where
  name : String
  traces : List roundTripTrace
  current : Option Nat
  bodySize : Int
  deriving DecidableEq

/-- The constructor `newInstrumentedTransport`: no trace yet, `current` left nil. -/
def newInstrumentedTransport (name : String) : transport :=
  { name := name, traces := [], current := none, bodySize := 0 }

/-- Apply `f` to the element at index `i` (nothing to do when `i` is out of range). -/
def modifyAt (f : roundTripTrace → roundTripTrace) : List roundTripTrace → Nat →
    List roundTripTrace
  | [], _ => []
  | t :: rest, 0 => f t :: rest
  | t :: rest, i + 1 => t :: modifyAt f rest i

/-- A write through the pointer `t.current`, which panics when the pointer is nil. -/
def transport.updateCurrent (t : transport) (f : roundTripTrace → roundTripTrace) :
    Except Panic transport :=
  match t.current with
  | none => Except.error Panic.nilPointerDereference
  | some i => Except.ok { t with traces := modifyAt f t.traces i }

/-- The hook `DNSStart`, fired when `time.Now()` is `now`. -/
def transport.DNSStart (t : transport) (now : Time) : Except Panic transport :=
  t.updateCurrent fun tr => { tr with start := now }

/-- The hook `DNSDone`. -/
def transport.DNSDone (t : transport) (now : Time) : Except Panic transport :=
  t.updateCurrent fun tr => { tr with dnsDone := now }

/-- The hook `ConnectStart`: no DNS resolution when we connected to an IP directly. -/
def transport.ConnectStart (ts : transport) (now : Time) : Except Panic transport :=
  ts.updateCurrent fun t =>
    if Time.IsZero t.dnsDone then
      let t := { t with start := now }
      { t with dnsDone := t.start }
    else t

/-- The hook `ConnectDone`. -/
def transport.ConnectDone (t : transport) (now : Time) : Except Panic transport :=
  t.updateCurrent fun tr => { tr with connectDone := now }

/-- The hook `GotConn`. -/
def transport.GotConn (t : transport) (now : Time) : Except Panic transport :=
  t.updateCurrent fun tr => { tr with gotConn := now }

/-- The hook `GotFirstResponseByte`. -/
def transport.GotFirstResponseByte (t : transport) (now : Time) : Except Panic transport :=
  t.updateCurrent fun tr => { tr with responseStart := now }

/-- The hook `TLSHandshakeStart`. -/
def transport.TLSHandshakeStart (t : transport) (now : Time) : Except Panic transport :=
  t.updateCurrent fun tr => { tr with tlsStart := now }

/-- The hook `TLSHandshakeDone`. -/
def transport.TLSHandshakeDone (t : transport) (now : Time) : Except Panic transport :=
  t.updateCurrent fun tr => { tr with tlsDone := now }

/-- A firing of one of the `httptrace.ClientTrace` hooks wired in `doTrace`, with the value
`time.Now()` has at that moment. -/
inductive HookEvent where
  | DNSStart (now : Time)
  | DNSDone (now : Time)
  | ConnectStart (now : Time)
  | ConnectDone (now : Time)
  | GotConn (now : Time)
  | GotFirstResponseByte (now : Time)
  | TLSHandshakeStart (now : Time)
  | TLSHandshakeDone (now : Time)
  deriving DecidableEq

/-- Dispatch of a hook firing to the method of the transport. -/
def transport.fire (t : transport) : HookEvent → Except Panic transport
  | HookEvent.DNSStart now => t.DNSStart now
  | HookEvent.DNSDone now => t.DNSDone now
  | HookEvent.ConnectStart now => t.ConnectStart now
  | HookEvent.ConnectDone now => t.ConnectDone now
  | HookEvent.GotConn now => t.GotConn now
  | HookEvent.GotFirstResponseByte now => t.GotFirstResponseByte now
  | HookEvent.TLSHandshakeStart now => t.TLSHandshakeStart now
  | HookEvent.TLSHandshakeDone now => t.TLSHandshakeDone now

/-- A sequence of hook firings, in order; the first panic stops it. -/
def transport.fireAll (t : transport) : List HookEvent → Except Panic transport
  | [] => Except.ok t
  | ev :: rest =>
    match t.fire ev with
    | Except.error p => Except.error p
    | Except.ok t1 => t1.fireAll rest

/-- The hook firing touches neither `start` nor `dnsDone` unconditionally: it is not one of
the two DNS hooks. -/
def HookEvent.notDNS : HookEvent → Bool
  | HookEvent.DNSStart _ => false
  | HookEvent.DNSDone _ => false
  | _ => true

/-! ## The completion callback of `doTrace` -/

/-- The closure `done` returned by `doTrace`, called with `result` when `time.Now()` is
`now`: the sink writes it makes, in order, and the transport it leaves. -/
def doTrace_done (tt : transport) (probeName : String) (now : Time) (result : Bool) :
    Except Panic (transport × List MetricEvent) :=
  -- At this point body is fully read and we can write end time.
  match tt.updateCurrent fun tr => { tr with end_ := now } with
  | Except.error p => Except.error p
  | Except.ok tt =>
    -- record body size
    let bodySize :=
      MetricEvent.gaugeSet "probe_http_uncompressed_body_length" [probeName] tt.bodySize
    -- aggregate duration for all requests (that is to support redirects)
    let durations := aggregate tt.traces
    -- now store the values in the histogram
    let observed := observeDurations probeName durations
    let success :=
      MetricEvent.gaugeSet "probe_success" [probeName] (if result then 1 else 0)
    Except.ok (tt, bodySize :: observed ++ [success])

/-! ## Concrete traces -/

/-- A completed plain-HTTP round trip. -/
def plainTraceA : roundTripTrace :=
  { tls := false, start := 10, dnsDone := 12, connectDone := 15, gotConn := 16,
    responseStart := 20, end_ := 27, tlsStart := 13, tlsDone := 14 }

/-- A second completed plain-HTTP round trip (the target of a redirect). -/
def plainTraceB : roundTripTrace :=
  { tls := false, start := 30, dnsDone := 33, connectDone := 35, gotConn := 37,
    responseStart := 42, end_ := 50, tlsStart := 34, tlsDone := 36 }

/-- A round trip that resolved the name and never got a connection. -/
def failedTrace : roundTripTrace :=
  { roundTripTrace.empty with start := 10, dnsDone := 14 }

/-- A completed TLS round trip with the handshake nested inside connect. -/
def nestedTLSTrace : roundTripTrace :=
  { tls := true, start := 1, dnsDone := 5, connectDone := 50, gotConn := 60,
    responseStart := 70, end_ := 80, tlsStart := 10, tlsDone := 20 }

/-! ## Certificate inspection -/

/-- The fields of an `x509.Certificate` that the exporter reads: the raw DER bytes, the
rendered subject and issuer (`cert.Subject.String()`, `cert.Issuer.String()`), the DNS names
and the expiry. -/
structure Certificate where
  Raw : List Nat
  Subject : String
  Issuer : String
  DNSNames : List String
  NotAfter : Time
  deriving DecidableEq

/-- The fields of a `tls.ConnectionState` that the exporter reads. -/
structure ConnectionState where
  Version : Nat
  PeerCertificates : List Certificate
  VerifiedChains : List (List Certificate)
  deriving DecidableEq

/-- The body of the loops over certificates, in `getEarliestCertExpiry` and in
`getLastChainExpiry` (the same statement in both). -/
def earliestStep (earliest : Time) (cert : Certificate) : Time :=
  if (Time.IsZero earliest || Time.Before cert.NotAfter earliest) &&
      !Time.IsZero cert.NotAfter then
    cert.NotAfter
  else earliest

/-- The loop over the certificates of one list, started from `time.Time{}`. -/
def earliestOf (certs : List Certificate) : Time :=
  certs.foldl earliestStep Time.zero

/-- The function `getEarliestCertExpiry`. -/
def getEarliestCertExpiry (state : ConnectionState) : Time :=
  earliestOf state.PeerCertificates

/-- The body of the loop over chains in `getLastChainExpiry`. -/
def lastChainStep (lastChainExpiry : Time) (chain : List Certificate) : Time :=
  let earliestCertExpiry := earliestOf chain
  if Time.IsZero lastChainExpiry || Time.Before lastChainExpiry earliestCertExpiry then
    earliestCertExpiry
  else lastChainExpiry

/-- The function `getLastChainExpiry`. -/
def getLastChainExpiry (state : ConnectionState) : Time :=
  state.VerifiedChains.foldl lastChainStep Time.zero

/-- The function `getFingerprint`; `hexSum256` stands for
`hex.EncodeToString(sha256.Sum256(raw)[:])`. Indexing an empty list panics. -/
def getFingerprint (hexSum256 : List Nat → String) (state : ConnectionState) :
    Except Panic String :=
  match state.PeerCertificates with
  | [] => Except.error Panic.indexOutOfRange
  | cert :: _ => Except.ok (hexSum256 cert.Raw)

/-- The function `getSubject`. -/
def getSubject (state : ConnectionState) : Except Panic String :=
  match state.PeerCertificates with
  | [] => Except.error Panic.indexOutOfRange
  | cert :: _ => Except.ok cert.Subject

/-- The function `getIssuer`. -/
def getIssuer (state : ConnectionState) : Except Panic String :=
  match state.PeerCertificates with
  | [] => Except.error Panic.indexOutOfRange
  | cert :: _ => Except.ok cert.Issuer

/-- The function `getDNSNames`. -/
def getDNSNames (state : ConnectionState) : Except Panic String :=
  match state.PeerCertificates with
  | [] => Except.error Panic.indexOutOfRange
  | cert :: _ => Except.ok (String.intercalate "," cert.DNSNames)

/-- The function `getTLSVersion`, with the values of `tls.VersionTLS10` to
`tls.VersionTLS13`. -/
def getTLSVersion (state : ConnectionState) : String :=
  if state.Version = 0x0301 then "TLS 1.0"
  else if state.Version = 0x0302 then "TLS 1.1"
  else if state.Version = 0x0303 then "TLS 1.2"
  else if state.Version = 0x0304 then "TLS 1.3"
  else "unknown"

/-- A certificate of which only the expiry matters. -/
def certExpiring (notAfter : Time) : Certificate :=
  { Raw := [], Subject := "", Issuer := "", DNSNames := [], NotAfter := notAfter }

/-- A connection state with the given peer certificates and verified chains. -/
def stateOf (peer : List Certificate) (chains : List (List Certificate)) : ConnectionState :=
  { Version := 0x0304, PeerCertificates := peer, VerifiedChains := chains }

/-! ## Errors, requests and responses -/

/-- A Go `error`: a plain one (`errors.New`, `fmt.Errorf` without `%w`) or one that wraps
another (`fmt.Errorf` with `%w`). -/
inductive GoError where
  | errorString (msg : String)
  | wrapError (msg : String) (err : GoError)
  deriving DecidableEq

/-- The method `Error()`. -/
def GoError.Error : GoError → String
  | GoError.errorString msg => msg
  | GoError.wrapError msg _ => msg

/-- The function `errors.Unwrap`. -/
def GoError.Unwrap : GoError → Option GoError
  | GoError.errorString _ => none
  | GoError.wrapError _ err => some err

/-- The fields of an `http.Request` that `RoundTrip` reads. -/
structure Request where
  URLString : String
  Scheme : String
  Host : String
  deriving DecidableEq

/-- The fields of an `http.Response` that `RoundTrip` reads. -/
structure Response where
  TLS : Option ConnectionState
  StatusCode : Int
  ContentLength : Int
  Proto : String
  deriving DecidableEq

/-- One call `t.Transport.RoundTrip(req)` of the wrapped round tripper: the hooks it fires
while it runs, and what it returns. -/
structure InnerRoundTrip where
  hooks : List HookEvent
  result : Except GoError Response

/-- The library functions `RoundTrip` calls: `hexSum256 raw` is
`hex.EncodeToString(sha256.Sum256(raw)[:])`, `parseFloatErr s` is the error of
`strconv.ParseFloat(s, 64)`. -/
structure Externals where
  hexSum256 : List Nat → String
  parseFloatErr : String → Option GoError

/-- Go `strings.TrimPrefix(s, "HTTP/")`. -/
def trimHTTP (s : String) : String :=
  if s.startsWith "HTTP/" then s.drop 5 else s

/-- Go `t.Unix()`: whole seconds since January 1, 1970 UTC. -/
def Time.Unix (t : Time) : Int := t / 1000000000 - 62135596800

/-! ## The world the exporter runs in -/

/-- A line written to the logger: the level and the key/value pairs. -/
structure LogEntry where
  level : String
  keyvals : List (String × String)
  deriving DecidableEq

/-- What the exporter changes while it runs: the instrumented transport installed in
`ce.params.client.Transport`, the writes to the metrics sink and the log lines, oldest
first. -/
structure World where
  tt : transport
  metrics : List MetricEvent
  logs : List LogEntry
  deriving DecidableEq

/-- The outcome of a call: it returns a value, or it panics; the world is the one the call
leaves behind in both cases. -/
inductive Result (α : Type) where
  | ok (w : World) (a : α)
  | panic (w : World) (p : Panic)
  deriving DecidableEq

/-- The world a call leaves behind. -/
def Result.world {α : Type} : Result α → World
  | Result.ok w _ => w
  | Result.panic w _ => w

/-- The sink writes of the block `if resp.TLS != nil` of `RoundTrip` up to the call of
`WithLabelValues` on `probeSSLLastInformation`. -/
def tlsGauges (state : ConnectionState) : List MetricEvent :=
  [MetricEvent.gaugeSet "probe_http_ssl" [] 1,
   MetricEvent.gaugeSet "probe_ssl_earliest_cert_expiry" []
     (Time.Unix (getEarliestCertExpiry state)),
   MetricEvent.gaugeSet "probe_tls_version_info" [getTLSVersion state] 1,
   MetricEvent.gaugeSet "probe_ssl_last_chain_expiry_timestamp_seconds" []
     (Time.Unix (getLastChainExpiry state))]

/-- The arguments of `t.metrics.probeSSLLastInformation.WithLabelValues(...)`, evaluated
left to right. -/
def lastInformationLabels (x : Externals) (state : ConnectionState) :
    Except Panic (List String) :=
  match getFingerprint x.hexSum256 state with
  | Except.error p => Except.error p
  | Except.ok fingerprint =>
    match getSubject state with
    | Except.error p => Except.error p
    | Except.ok subject =>
      match getIssuer state with
      | Except.error p => Except.error p
      | Except.ok issuer =>
        match getDNSNames state with
        | Except.error p => Except.error p
        | Except.ok names => Except.ok [fingerprint, subject, issuer, names]

/-- The tail of `RoundTrip`, after the wrapped round tripper has returned `resp` without
error: TLS gauges, status code, content length and HTTP version. -/
def handleResponse (x : Externals) (w : World) (resp : Response) :
    Result (Response × Option GoError) :=
  let afterTLS : Result Unit :=
    match resp.TLS with
    | none => Result.ok w ()
    | some state =>
      let w := { w with metrics := w.metrics ++ tlsGauges state }
      match lastInformationLabels x state with
      | Except.error p => Result.panic w p
      | Except.ok labels =>
        Result.ok { w with metrics := w.metrics ++
          [MetricEvent.gaugeSet "probe_ssl_last_chain_info" labels 1] } ()
  match afterTLS with
  | Result.panic w p => Result.panic w p
  | Result.ok w _ =>
    let w := { w with metrics := w.metrics ++
      [MetricEvent.gaugeSet "probe_http_status_code" [w.tt.name] resp.StatusCode,
       MetricEvent.gaugeSet "probe_http_content_length" [w.tt.name] resp.ContentLength] }
    let err := x.parseFloatErr (trimHTTP resp.Proto)
    let w :=
      match err with
      | some e => { w with logs := w.logs ++ [LogEntry.mk "error"
          [("msg", "Error parsing version number from HTTP version"), ("err", e.Error)]] }
      | none => w
    let w := { w with metrics := w.metrics ++
      [MetricEvent.gaugeSetParsed "probe_http_version" [w.tt.name] (trimHTTP resp.Proto)] }
    Result.ok w (resp, err)

/-- The method `transport.RoundTrip`, on the transport installed in the world: it switches
to a new trace, then runs the embedded round tripper. -/
def RoundTrip (x : Externals) (w : World) (req : Request) (inner : InnerRoundTrip) :
    Result (Option Response × Option GoError) :=
  let w := { w with logs := w.logs ++ [LogEntry.mk "debug"
    [("msg", "making HTTP request"), ("url", req.URLString), ("host", req.Host)]] }
  let trace := { roundTripTrace.empty with tls := decide (req.Scheme = "https") }
  let t := { w.tt with current := some w.tt.traces.length, traces := w.tt.traces ++ [trace] }
  let w := { w with tt := t }
  match t.fireAll inner.hooks with
  | Except.error p => Result.panic w p
  | Except.ok t =>
    let w := { w with tt := t }
    match inner.result with
    | Except.error err => Result.ok w (none, some err)
    | Except.ok resp =>
      match handleResponse x w resp with
      | Result.panic w p => Result.panic w p
      | Result.ok w (resp, err) => Result.ok w (some resp, err)

/-! ## Probes -/

/-- What a probe function makes the HTTP client do: a round trip on the installed transport,
or a `Read` on a wrapped response body that returned `n` bytes. -/
inductive ClientOp where
  | roundTrip (req : Request) (inner : InnerRoundTrip)
  | read (n : Int)

/-- One run of a probe function (the functions themselves, `testIngestProfile` and the
query probes, are external collaborators): the HTTP activity it drives, in order, the error
it returns, and the value `time.Now()` has when the completion callback runs. -/
structure ProbeRun where
  ops : List ClientOp
  err : Option GoError
  doneAt : Time

/-- The method `readerWrapper.Read`, after the underlying read returned `n` bytes. -/
def readerWrapper_Read (w : World) (n : Int) : World :=
  { w with tt := { w.tt with bodySize := w.tt.bodySize + n } }

/-- The HTTP activity of a probe function, in order; a panic stops it. -/
def runOps (x : Externals) (w : World) : List ClientOp → Result Unit
  | [] => Result.ok w ()
  | ClientOp.roundTrip req inner :: rest =>
    match RoundTrip x w req inner with
    | Result.panic w p => Result.panic w p
    | Result.ok w _ => runOps x w rest
  | ClientOp.read n :: rest => runOps x (readerWrapper_Read w n) rest

/-- The method `doTrace` up to its `return`: it logs, builds the instrumented transport and
installs it in the client (the callback it returns is `doTrace_done` on that transport). -/
def doTrace (w : World) (probeName : String) : World :=
  { w with
    logs := w.logs ++
      [LogEntry.mk "info" [("msg", "starting probe"), ("probe_name", probeName)]],
    tt := newInstrumentedTransport probeName }

/-- The callback `done` run on the world: the transport and the sink writes it leaves, or
the panic. -/
def runDone (w : World) (probeName : String) (now : Time) (result : Bool) : Result Unit :=
  match doTrace_done w.tt probeName now result with
  | Except.error p => Result.panic w p
  | Except.ok (tt, events) => Result.ok { w with tt := tt, metrics := w.metrics ++ events } ()

/-- The method `runProbe`. The deferred call of `done(result)` runs when the probe function
has returned and also when it has panicked (`result` is still false then, and the panic
goes on afterwards unless the callback itself panics). -/
def runProbe (x : Externals) (w : World) (probeName : String) (probeFunc : ProbeRun) :
    Result (Option GoError) :=
  let w := doTrace w probeName
  match runOps x w probeFunc.ops with
  | Result.panic w p =>
    match runDone w probeName probeFunc.doneAt false with
    | Result.panic w q => Result.panic w q
    | Result.ok w _ => Result.panic w p
  | Result.ok w _ =>
    match probeFunc.err with
    | some err =>
      let w := { w with logs := w.logs ++ [LogEntry.mk "error"
        [("msg", "probe failed"), ("probe_name", probeName), ("err", err.Error)]] }
      match runDone w probeName probeFunc.doneAt false with
      | Result.panic w q => Result.panic w q
      | Result.ok w _ => Result.ok w (some err)
    | none =>
      let w := { w with logs := w.logs ++ [LogEntry.mk "info"
        [("msg", "probe successful"), ("probe_name", probeName)]] }
      match runDone w probeName probeFunc.doneAt true with
      | Result.panic w q => Result.panic w q
      | Result.ok w _ => Result.ok w none

/-- The struct `queryProbe`: `f now` is the run of the probe function called with the
logical timestamp `now`. -/
structure queryProbe where
  name : String
  f : Time → ProbeRun

/-- The parts of `canaryExporter` that `testPyroscopeCell` reads: `params.TestDelay`, the
method `testIngestProfile` and the catalog `queryProbes`. -/
structure canaryExporter where
  TestDelay : Int
  testIngestProfile : Time → ProbeRun
  queryProbes : List queryProbe

/-- A `multierror.MultiError`: the list of the errors added. -/
abbrev MultiError := List GoError

/-- The method `MultiError.Add`: it adds the error to the list if it is not nil (the errors
of the probes are taken to be single errors). -/
def MultiError.Add (es : MultiError) (err : Option GoError) : MultiError :=
  match err with
  | none => es
  | some e => es ++ [e]

/-- The method `MultiError.Err`: nil when the list is empty. -/
def MultiError.Err (es : MultiError) : Option MultiError :=
  if es.length = 0 then none else some es

/-- The loop `for _, probe := range ce.queryProbes` of `testPyroscopeCell`. -/
def queryLoop (x : Externals) (now : Time) (w : World) (multiError : MultiError) :
    List queryProbe → Result MultiError
  | [] => Result.ok w multiError
  | probe :: rest =>
    match runProbe x w probe.name (probe.f now) with
    | Result.panic w p => Result.panic w p
    | Result.ok w err => queryLoop x now w (MultiError.Add multiError err) rest

/-- The method `testPyroscopeCell`, with `now` the value of `time.Now()` at its start. -/
def testPyroscopeCell (x : Externals) (ce : canaryExporter) (w : World) (now : Time) :
    Result (Option GoError) :=
  -- ingest a fake profile
  match runProbe x w "ingest" (ce.testIngestProfile now) with
  | Result.panic w p => Result.panic w p
  | Result.ok w (some err) =>
    Result.ok w (some (GoError.wrapError ("error during ingestion: " ++ err.Error) err))
  | Result.ok w none =>
    let w :=
      if ce.TestDelay > 0 then
        { w with logs := w.logs ++ [LogEntry.mk "info"
          [("msg", "waiting before running a query"), ("delay", toString ce.TestDelay)]] }
      else w
    -- Now try to query the data back
    match queryLoop x now w [] ce.queryProbes with
    | Result.panic w p => Result.panic w p
    | Result.ok w multiError =>
      if (MultiError.Err multiError).isSome then
        Result.ok w (some (GoError.errorString
          (toString multiError.length ++ " error(s) reported from query probes")))
      else Result.ok w none

/-- The probe named by a log line of `doTrace`, `none` for any other line. -/
def startedProbe (l : LogEntry) : Option String :=
  match l.keyvals with
  | [("msg", "starting probe"), ("probe_name", name)] => some name
  | _ => none

/-- The names of the probes started, read off the log lines of `doTrace`, oldest first. -/
def probesStarted (w : World) : List String :=
  w.logs.filterMap startedProbe

/-- The probe and the value of a write to the gauge `probe_success`, `none` for any other
write. -/
def successWrite (e : MetricEvent) : Option (String × Int) :=
  match e with
  | MetricEvent.gaugeSet "probe_success" [name] v => some (name, v)
  | _ => none

/-- The writes to the gauge `probe_success`, oldest first. -/
def successGauge (w : World) : List (String × Int) :=
  w.metrics.filterMap successWrite

/-- The world before the exporter has run anything. -/
def World.initial : World :=
  { tt := newInstrumentedTransport "", metrics := [], logs := [] }

/-! ## Concrete probes -/

/-- Library functions for the concrete runs (their values play no part). -/
def plainExternals : Externals :=
  { hexSum256 := fun _ => "", parseFloatErr := fun _ => none }

/-- A plain-HTTP response with status 200. -/
def plainResponse : Response :=
  { TLS := none, StatusCode := 200, ContentLength := 10, Proto := "HTTP/1.1" }

/-- The request of the plain-HTTP round trips. -/
def plainRequest : Request :=
  { URLString := "http://pyroscope:4040/", Scheme := "http", Host := "pyroscope:4040" }

/-- A plain-HTTP round trip that gets a 200 response. -/
def plainRoundTrip : ClientOp :=
  ClientOp.roundTrip plainRequest
    { hooks := [HookEvent.DNSStart 1, HookEvent.DNSDone 2, HookEvent.ConnectStart 3,
        HookEvent.ConnectDone 4, HookEvent.GotConn 5, HookEvent.GotFirstResponseByte 6],
      result := Except.ok plainResponse }

/-- A probe run that makes one round trip, reads the body and succeeds. -/
def succeedingRun : ProbeRun :=
  { ops := [plainRoundTrip, ClientOp.read 10], err := none, doneAt := 9 }

/-- A probe run that makes one round trip and returns an error. -/
def failingRun : ProbeRun :=
  { ops := [plainRoundTrip], err := some (GoError.errorString "boom"), doneAt := 9 }

/-- A probe run that returns an error before it has sent any request. -/
def failingRunWithoutRoundTrip : ProbeRun :=
  { ops := [], err := some (GoError.errorString "no request sent"), doneAt := 9 }

/-- Five query probes of which the second and the fourth fail, each after a round trip. -/
def fiveProbes : List queryProbe :=
  [{ name := "q1", f := fun _ => succeedingRun }, { name := "q2", f := fun _ => failingRun },
   { name := "q3", f := fun _ => succeedingRun }, { name := "q4", f := fun _ => failingRun },
   { name := "q5", f := fun _ => succeedingRun }]

/-- Five query probes of which the second and the fourth fail, the second before it has sent
any request. -/
def fiveProbesOneSilent : List queryProbe :=
  [{ name := "q1", f := fun _ => succeedingRun },
   { name := "q2", f := fun _ => failingRunWithoutRoundTrip },
   { name := "q3", f := fun _ => succeedingRun }, { name := "q4", f := fun _ => failingRun },
   { name := "q5", f := fun _ => succeedingRun }]

/-- A TLS response whose connection state has the given peer certificates. -/
def tlsResponse (peer : List Certificate) : Response :=
  { TLS := some (stateOf peer []), StatusCode := 200, ContentLength := 10,
    Proto := "HTTP/2.0" }

/-- An HTTPS round trip answered by `resp`. -/
def httpsRoundTrip (resp : Response) : InnerRoundTrip :=
  { hooks := [HookEvent.ConnectStart 3, HookEvent.ConnectDone 4, HookEvent.TLSHandshakeStart 5,
      HookEvent.TLSHandshakeDone 6, HookEvent.GotConn 7, HookEvent.GotFirstResponseByte 8],
    result := Except.ok resp }

/-- The request of the HTTPS round trips. -/
def httpsRequest : Request :=
  { URLString := "https://pyroscope/", Scheme := "https", Host := "pyroscope" }

/-- The value a call returned, `none` when it panicked. -/
def Result.value? {α : Type} : Result α → Option α
  | Result.ok _ a => some a
  | Result.panic _ _ => none

/-- The panic of a call, `none` when it returned. -/
def Result.panicked? {α : Type} : Result α → Option Panic
  | Result.ok _ _ => none
  | Result.panic _ p => some p

/-- The operation is a round trip. -/
def ClientOp.isRoundTrip : ClientOp → Bool
  | ClientOp.roundTrip _ _ => true
  | ClientOp.read _ => false

/-- The operation is a read, or a round trip that does not answer over TLS with an empty
peer-certificate list. -/
def ClientOp.hasCertificates : ClientOp → Bool
  | ClientOp.roundTrip _ inner =>
    match inner.result with
    | Except.ok resp =>
      match resp.TLS with
      | some state => !state.PeerCertificates.isEmpty
      | none => true
    | Except.error _ => true
  | ClientOp.read _ => true

/-- The probe run makes at least one round trip, and none of its round trips is answered
over TLS with an empty peer-certificate list. -/
def ProbeRun.roundTrips (run : ProbeRun) : Bool :=
  run.ops.any ClientOp.isRoundTrip && run.ops.all ClientOp.hasCertificates

/-- An exporter whose ingest probe is `ingest` and whose catalog is `probes`. -/
def exporterOf (ingest : ProbeRun) (probes : List queryProbe) : canaryExporter :=
  { TestDelay := 2000000000, testIngestProfile := fun _ => ingest, queryProbes := probes }

/-- The number of query probes whose run, called with `now`, returns an error. -/
def failingProbes (now : Time) (probes : List queryProbe) : Nat :=
  (probes.filter fun p => (p.f now).err.isSome).length

/-! ## The loop with the arithmetic of Go

`aggregateTrace` above reads `t.Sub(u).Seconds()` as the exact difference and `+=` as exact
addition. Here the same loop is read as Go computes it: `Sub` saturates at the bounds of
`time.Duration`, and the float64 operations (`Duration.Seconds()`, `+`, the zero of an
absent key) are left uninterpreted, so that what is proved holds for float64 as it is. -/

/-- The constant `minDuration` of package `time`: `-1 << 63` nanoseconds. -/
def minDuration : Int := -9223372036854775808

/-- The constant `maxDuration` of package `time`: `1<<63 - 1` nanoseconds. -/
def maxDuration : Int := 9223372036854775807

/-- Go `t.Sub(u)`, a `time.Duration` in nanoseconds: the difference when it can be stored,
otherwise `minDuration` when `t` is before `u` and `maxDuration` when it is not. -/
def Time.SubGo (t u : Time) : Int :=
  if minDuration ≤ t - u ∧ t - u ≤ maxDuration then t - u
  else if Time.Before t u then minDuration
  else maxDuration

/-- The float64 operations that the loop uses, on a type `F` that stands for float64:
the zero that an absent key reads as, `+`, and `Duration.Seconds()` of a duration of so many
nanoseconds; `nonneg x` is `x >= 0`, with the three facts about it that hold of float64. -/
structure FloatOps (F : Type) where
  zero : F
  add : F → F → F
  seconds : Int → F
  nonneg : F → Prop
  zero_nonneg : nonneg zero
  add_nonneg : ∀ x y, nonneg x → nonneg y → nonneg (add x y)
  seconds_nonneg : ∀ d, 0 ≤ d → nonneg (seconds d)

/-- The operations read on whole nanoseconds, without rounding: a duration is its number of
nanoseconds. -/
def nsOps : FloatOps Int :=
  { zero := 0, add := fun x y => x + y, seconds := fun d => d, nonneg := fun x => 0 ≤ x,
    zero_nonneg := le_refl 0, add_nonneg := fun _ _ hx hy => add_nonneg hx hy,
    seconds_nonneg := fun _ h => h }

/-- The comma-ok read `v, ok := m[k]` of a `map[string]float64`. -/
def floatLookup {F : Type} : List (String × F) → String → Option F
  | [], _ => none
  | (k', v) :: rest, k => if k' = k then some v else floatLookup rest k

/-- The read `m[k]`: an absent key reads as zero. -/
def floatGet {F : Type} (fl : FloatOps F) (m : List (String × F)) (k : String) : F :=
  (floatLookup m k).getD fl.zero

/-- The statement `m[k] += v`. -/
def floatAdd {F : Type} (fl : FloatOps F) :
    List (String × F) → String → F → List (String × F)
  | [], k, v => [(k, fl.add fl.zero v)]
  | (k', x) :: rest, k, v =>
    if k' = k then (k', fl.add x v) :: rest else (k', x) :: floatAdd fl rest k v

/-- One iteration of `for _, trace := range tt.traces`, as Go computes it. -/
def aggregateTraceWith {F : Type} (fl : FloatOps F) (durations : List (String × F))
    (trace : roundTripTrace) : List (String × F) :=
  let durations :=
    floatAdd fl durations "resolve" (fl.seconds (Time.SubGo trace.dnsDone trace.start))
  -- Continue here if we never got a connection because a request failed.
  if Time.IsZero trace.gotConn then durations else
  let durations :=
    if trace.tls then
      floatAdd fl
        (floatAdd fl durations "connect"
          (fl.seconds (Time.SubGo trace.connectDone trace.dnsDone)))
        "tls" (fl.seconds (Time.SubGo trace.tlsDone trace.tlsStart))
    else
      floatAdd fl durations "connect" (fl.seconds (Time.SubGo trace.gotConn trace.dnsDone))
  -- Continue here if we never got a response from the server.
  if Time.IsZero trace.responseStart then durations else
  let durations :=
    floatAdd fl durations "processing"
      (fl.seconds (Time.SubGo trace.responseStart trace.gotConn))
  -- Continue here if we never read the full response from the server.
  if Time.IsZero trace.end_ then durations else
  floatAdd fl durations "transfer" (fl.seconds (Time.SubGo trace.end_ trace.responseStart))

/-- The whole loop, started from `make(map[string]float64)`, as Go computes it. -/
def aggregateWith {F : Type} (fl : FloatOps F) (traces : List roundTripTrace) :
    List (String × F) :=
  traces.foldl (aggregateTraceWith fl) []

/-- What one trace adds to the total of a phase as Go computes it, `none` when the loop
body does not touch the phase for this trace. -/
def phaseContributionWith {F : Type} (fl : FloatOps F) (phase : String) (t : roundTripTrace) :
    Option F :=
  if phase = "resolve" then some (fl.seconds (Time.SubGo t.dnsDone t.start))
  else if Time.IsZero t.gotConn then none
  else if phase = "connect" then
    some (if t.tls then fl.seconds (Time.SubGo t.connectDone t.dnsDone)
      else fl.seconds (Time.SubGo t.gotConn t.dnsDone))
  else if phase = "tls" then
    (if t.tls then some (fl.seconds (Time.SubGo t.tlsDone t.tlsStart)) else none)
  else if Time.IsZero t.responseStart then none
  else if phase = "processing" then some (fl.seconds (Time.SubGo t.responseStart t.gotConn))
  else if Time.IsZero t.end_ then none
  else if phase = "transfer" then some (fl.seconds (Time.SubGo t.end_ t.responseStart))
  else none

/-- The writes of the completion callback to the sink, for the probe `name`: the value set
on the body-size gauge, the samples observed on `probe_http_duration_seconds`, one per entry
of the map, as pairs of the phase and the value, and the value set on the success gauge. -/
structure DoneWrites (F : Type) where
  name : String
  bodySize : Int
  observed : List (String × F)
  success : Int

/-- The closure `done` returned by `doTrace`, as Go computes the durations. -/
def doTrace_doneWith {F : Type} (fl : FloatOps F) (tt : transport) (probeName : String)
    (now : Time) (result : Bool) : Except Panic (transport × DoneWrites F) :=
  -- At this point body is fully read and we can write end time.
  match tt.updateCurrent fun tr => { tr with end_ := now } with
  | Except.error p => Except.error p
  | Except.ok tt =>
    -- aggregate duration for all requests (that is to support redirects)
    let durations := aggregateWith fl tt.traces
    Except.ok (tt,
      { name := probeName, bodySize := tt.bodySize, observed := durations,
        success := if result then 1 else 0 })

/-- A round trip of today that failed while the name was being resolved: `start` is set (a
present-day instant, in nanoseconds since the zero time), `dnsDone` and `gotConn` are not. -/
def dnsFailedTrace : roundTripTrace :=
  { roundTripTrace.empty with start := 63082281600000000001 }

/-- A completed TLS round trip with the handshake nested inside connect, whose `dnsDone` is
more than 292 years before its `connectDone`. -/
def farApartTLSTrace : roundTripTrace :=
  { tls := true, start := 1, dnsDone := 5, connectDone := 63082281600000000010,
    gotConn := 63082281600000000020, responseStart := 63082281600000000030,
    end_ := 63082281600000000040, tlsStart := 10, tlsDone := 20 }

/-! ## More of `time.Time` -/

/-- Go `t.After(u)`. -/
def Time.After (t u : Time) : Bool := decide (u < t)

/-- Go `t.Add(d)`, `d` in nanoseconds. -/
def Time.Add (t : Time) (d : Int) : Time := t + d

end CanaryExporter

namespace Ruler

open CanaryExporter

/-! ## The per-tenant cache of recording rules (`pkg/experiment/metrics/ruler.go`) -/

/-- The constant `rulesExpiryTime = time.Minute`, in nanoseconds. -/
def rulesExpiryTime : Int := 60000000000

/-- The struct `tenantCache`, for rules of type `Rule`: `value` is the slice held (`none` is
the nil slice, `some []` an empty one that is not nil), `ttl` the expiry, and `initFunc n`
what the call number `n` (from 0) of the closure `initFunc` returns, the closure asking an
external service. The mutex and the logger are not fields: calls are taken one at a time. -/
structure tenantCache (Rule : Type) where
  value : Option (List Rule)
  ttl : Time
  initFunc : Nat → Except GoError (Option (List Rule))

/-- What `get` changes outside the cache: the number of calls of `initFunc` made so far and
the log lines, oldest first. -/
structure Effects where
  initCalls : Nat
  logs : List LogEntry
  deriving DecidableEq

/-- The method `tenantCache.get`; `now1`, `now2` and `now3` are the values of its three
calls of `time.Now()`, in the order of the source. It gives the slice returned, the cache
and the effects it leaves. -/
def tenantCache.get {Rule : Type} (c : tenantCache Rule) (e : Effects)
    (now1 now2 now3 : Time) : Option (List Rule) × tenantCache Rule × Effects :=
  if c.value.isSome && Time.Before now1 c.ttl then
    -- value exists and didn't expired
    (c.value, c, e)
  else
    -- only race-winner will fetch the data
    if c.value.isNone || Time.After now2 c.ttl then
      match c.initFunc e.initCalls with
      | Except.error err =>
        -- keep old value and ttl, just log an error
        (c.value, c,
          { initCalls := e.initCalls + 1,
            logs := e.logs ++ [LogEntry.mk "error"
              [("msg", "failed to fetch recording rules"), ("err", err.Error)]] })
      | Except.ok value =>
        (value, { c with value := value, ttl := Time.Add now3 rulesExpiryTime },
          { e with initCalls := e.initCalls + 1 })
    else (c.value, c, e)

/-- The method `get` called at one instant: the three readings of the clock are `now`. -/
def tenantCache.getAt {Rule : Type} (c : tenantCache Rule) (e : Effects) (now : Time) :
    Option (List Rule) × tenantCache Rule × Effects :=
  c.get e now now now

/-- Successive calls of `get`, one at each of the instants of the list: the slices
returned, in order, and the cache and the effects left by the last call. -/
def tenantCache.getAll {Rule : Type} (c : tenantCache Rule) (e : Effects) :
    List Time → List (Option (List Rule)) × tenantCache Rule × Effects
  | [] => ([], c, e)
  | now :: rest =>
    let r := c.getAt e now
    let rs := tenantCache.getAll r.2.1 r.2.2 rest
    (r.1 :: rs.1, rs.2.1, rs.2.2)

/-- No call of `initFunc` made yet, nothing logged. -/
def Effects.none : Effects := { initCalls := 0, logs := [] }

/-- A cache that holds the rules `[1]` until the instant 100 and whose service answers
`[2]`. -/
def heldCache : tenantCache Nat :=
  { value := some [1], ttl := 100, initFunc := fun _ => Except.ok (some [2]) }

/-- A cache that holds nothing and whose service answers with a nil slice and no error. -/
def nilServiceCache : tenantCache Nat :=
  { value := none, ttl := Time.zero, initFunc := fun _ => Except.ok none }

end Ruler

namespace CanaryExporter

/-! # Theorems -/

/-! ## The map -/

theorem mapLookup_mapAdd (m : Durations) (k k' : String) (v : Int) :
    mapLookup (mapAdd m k v) k' =
      if k = k' then some (mapGet m k + v) else mapLookup m k' := by
  induction m with
  | nil => simp [mapAdd, mapLookup, mapGet]
  | cons p rest ih =>
    obtain ⟨q, x⟩ := p
    by_cases hq : q = k
    · subst hq
      by_cases hk : q = k' <;> simp [mapAdd, mapLookup, mapGet, hk]
    · by_cases hk : k = k'
      · subst hk
        simp [mapAdd, mapLookup, mapGet, hq, ih]
      · by_cases hqk : q = k'
        · subst hqk
          simp [mapAdd, mapLookup, hq, hk]
        · simp [mapAdd, mapLookup, hq, hk, hqk, ih]

/-! ## Aggregation of completed plain-HTTP traces -/

theorem aggregateTrace_plain_first (t : roundTripTrace) (htls : t.tls = false)
    (hset : t.allSet) :
    aggregateTrace [] t =
      [("resolve", t.dnsDone - t.start), ("connect", t.gotConn - t.dnsDone),
       ("processing", t.responseStart - t.gotConn),
       ("transfer", t.end_ - t.responseStart)] := by
  obtain ⟨_, _, _, h4, h5, h6, _, _⟩ := hset
  simp [aggregateTrace, Time.IsZero, Time.Sub, mapAdd, htls, h4, h5, h6]

theorem aggregateTrace_plain_next (a b c e : Int) (t : roundTripTrace)
    (htls : t.tls = false) (hset : t.allSet) :
    aggregateTrace [("resolve", a), ("connect", b), ("processing", c), ("transfer", e)] t =
      [("resolve", a + (t.dnsDone - t.start)), ("connect", b + (t.gotConn - t.dnsDone)),
       ("processing", c + (t.responseStart - t.gotConn)),
       ("transfer", e + (t.end_ - t.responseStart))] := by
  obtain ⟨_, _, _, h4, h5, h6, _, _⟩ := hset
  simp [aggregateTrace, Time.IsZero, Time.Sub, mapAdd, htls, h4, h5, h6]

theorem aggregate_plain_acc (traces : List roundTripTrace)
    (h : ∀ t ∈ traces, t.tls = false ∧ t.allSet) (a b c e : Int) :
    traces.foldl aggregateTrace
        [("resolve", a), ("connect", b), ("processing", c), ("transfer", e)] =
      [("resolve", a + (traces.map fun t => Time.Sub t.dnsDone t.start).sum),
       ("connect", b + (traces.map fun t => Time.Sub t.gotConn t.dnsDone).sum),
       ("processing", c + (traces.map fun t => Time.Sub t.responseStart t.gotConn).sum),
       ("transfer", e + (traces.map fun t => Time.Sub t.end_ t.responseStart).sum)] := by
  induction traces generalizing a b c e with
  | nil => simp
  | cons t rest ih =>
    have ht := h t (List.mem_cons_self _ _)
    have hrest : ∀ u ∈ rest, u.tls = false ∧ u.allSet :=
      fun u hu => h u (List.mem_cons_of_mem _ hu)
    rw [List.foldl_cons, aggregateTrace_plain_next a b c e t ht.1 ht.2, ih hrest]
    simp [Time.Sub, add_assoc]

theorem aggregate_plain (traces : List roundTripTrace) (hne : traces ≠ [])
    (h : ∀ t ∈ traces, t.tls = false ∧ t.allSet) :
    aggregate traces =
      [("resolve", (traces.map fun t => Time.Sub t.dnsDone t.start).sum),
       ("connect", (traces.map fun t => Time.Sub t.gotConn t.dnsDone).sum),
       ("processing", (traces.map fun t => Time.Sub t.responseStart t.gotConn).sum),
       ("transfer", (traces.map fun t => Time.Sub t.end_ t.responseStart).sum)] := by
  cases traces with
  | nil => exact absurd rfl hne
  | cons t rest =>
    have ht := h t (List.mem_cons_self _ _)
    have hrest : ∀ u ∈ rest, u.tls = false ∧ u.allSet :=
      fun u hu => h u (List.mem_cons_of_mem _ hu)
    rw [aggregate, List.foldl_cons, aggregateTrace_plain_first t ht.1 ht.2,
      aggregate_plain_acc rest hrest]
    simp [Time.Sub]

/-- C1. For every non-empty sequence of round-trip traces that are all plain HTTP
(`tls = false`) with all eight timestamps set, the aggregation loop of the completion
callback totals `resolve`, `connect`, `processing` and `transfer` as the sums, over every
trace of the sequence, of `dnsDone - start`, `gotConn - dnsDone`, `responseStart - gotConn`
and `end - responseStart`; the map has no `tls` entry, and the samples observed on
`probe_http_duration_seconds` are exactly these four, also when the loop runs inside the
callback (on the traces as they are once the callback has written `end`). -/
theorem doTrace_aggregate_plain_complete (probeName : String) (traces : List roundTripTrace)
    (hne : traces ≠ []) (h : ∀ t ∈ traces, t.tls = false ∧ t.allSet) :
    mapLookup (aggregate traces) "resolve" =
        some (traces.map fun t => Time.Sub t.dnsDone t.start).sum ∧
    mapLookup (aggregate traces) "connect" =
        some (traces.map fun t => Time.Sub t.gotConn t.dnsDone).sum ∧
    mapLookup (aggregate traces) "processing" =
        some (traces.map fun t => Time.Sub t.responseStart t.gotConn).sum ∧
    mapLookup (aggregate traces) "transfer" =
        some (traces.map fun t => Time.Sub t.end_ t.responseStart).sum ∧
    mapLookup (aggregate traces) "tls" = none ∧
    (∀ ev, ev ∈ observeDurations probeName (aggregate traces) ↔
      ev = MetricEvent.observe "probe_http_duration_seconds" [probeName, "resolve"]
            (traces.map fun t => Time.Sub t.dnsDone t.start).sum ∨
      ev = MetricEvent.observe "probe_http_duration_seconds" [probeName, "connect"]
            (traces.map fun t => Time.Sub t.gotConn t.dnsDone).sum ∨
      ev = MetricEvent.observe "probe_http_duration_seconds" [probeName, "processing"]
            (traces.map fun t => Time.Sub t.responseStart t.gotConn).sum ∨
      ev = MetricEvent.observe "probe_http_duration_seconds" [probeName, "transfer"]
            (traces.map fun t => Time.Sub t.end_ t.responseStart).sum) ∧
    (∀ (tt : transport) (i : Nat) (now : Time) (result : Bool), tt.current = some i →
      modifyAt (fun tr => { tr with end_ := now }) tt.traces i = traces →
      ∃ evs, doTrace_done tt probeName now result =
          Except.ok ({ tt with traces := traces }, evs) ∧
        ∀ ev, ev ∈ evs ↔
          ev = MetricEvent.gaugeSet "probe_http_uncompressed_body_length" [probeName]
                tt.bodySize ∨
          ev = MetricEvent.observe "probe_http_duration_seconds" [probeName, "resolve"]
                (traces.map fun t => Time.Sub t.dnsDone t.start).sum ∨
          ev = MetricEvent.observe "probe_http_duration_seconds" [probeName, "connect"]
                (traces.map fun t => Time.Sub t.gotConn t.dnsDone).sum ∨
          ev = MetricEvent.observe "probe_http_duration_seconds" [probeName, "processing"]
                (traces.map fun t => Time.Sub t.responseStart t.gotConn).sum ∨
          ev = MetricEvent.observe "probe_http_duration_seconds" [probeName, "transfer"]
                (traces.map fun t => Time.Sub t.end_ t.responseStart).sum ∨
          ev = MetricEvent.gaugeSet "probe_success" [probeName] (if result then 1 else 0)) := by
  rw [aggregate_plain traces hne h]
  refine ⟨by simp [mapLookup], by simp [mapLookup], by simp [mapLookup],
    by simp [mapLookup], by simp [mapLookup], ?_, ?_⟩
  · intro ev
    simp [observeDurations]
  · intro tt i now result hcur hmod
    refine ⟨MetricEvent.gaugeSet "probe_http_uncompressed_body_length" [probeName]
        tt.bodySize :: observeDurations probeName (aggregate traces) ++
        [MetricEvent.gaugeSet "probe_success" [probeName] (if result then 1 else 0)], ?_, ?_⟩
    · simp only [doTrace_done, transport.updateCurrent, hcur, hmod]
    · intro ev
      rw [aggregate_plain traces hne h]
      simp [observeDurations, or_assoc]

theorem mapLookup_aggregateTrace (d : Durations) (t : roundTripTrace) (k : String) :
    mapLookup (aggregateTrace d t) k =
      match phaseContribution k t with
      | none => mapLookup d k
      | some v => some (mapGet d k + v) := by
  by_cases h1 : k = "resolve"
  · subst h1
    simp only [aggregateTrace, phaseContribution]
    split_ifs <;> simp [mapLookup_mapAdd]
  by_cases h2 : k = "connect"
  · subst h2
    simp only [aggregateTrace, phaseContribution]
    split_ifs <;> simp_all [mapLookup_mapAdd, mapGet]
  by_cases h3 : k = "tls"
  · subst h3
    simp only [aggregateTrace, phaseContribution]
    split_ifs <;> simp_all [mapLookup_mapAdd, mapGet]
  by_cases h4 : k = "processing"
  · subst h4
    simp only [aggregateTrace, phaseContribution]
    split_ifs <;> simp_all [mapLookup_mapAdd, mapGet]
  by_cases h5 : k = "transfer"
  · subst h5
    simp only [aggregateTrace, phaseContribution]
    split_ifs <;> simp_all [mapLookup_mapAdd, mapGet]
  have e1 : ¬ "resolve" = k := fun e => h1 e.symm
  have e2 : ¬ "connect" = k := fun e => h2 e.symm
  have e3 : ¬ "tls" = k := fun e => h3 e.symm
  have e4 : ¬ "processing" = k := fun e => h4 e.symm
  have e5 : ¬ "transfer" = k := fun e => h5 e.symm
  simp only [aggregateTrace, phaseContribution]
  split_ifs <;> simp [mapLookup_mapAdd, e1, e2, e3, e4, e5]

theorem mapLookup_foldl_aggregateTrace (traces : List roundTripTrace) (d : Durations)
    (k : String) :
    mapLookup (traces.foldl aggregateTrace d) k =
      if traces.filterMap (phaseContribution k) = [] then mapLookup d k
      else some (mapGet d k + (traces.filterMap (phaseContribution k)).sum) := by
  induction traces generalizing d with
  | nil => simp
  | cons t rest ih =>
    rw [List.foldl_cons, ih, mapLookup_aggregateTrace]
    cases hc : phaseContribution k t with
    | none => simp [List.filterMap_cons, hc, mapGet, mapLookup_aggregateTrace]
    | some v =>
      simp only [List.filterMap_cons, hc, mapGet, mapLookup_aggregateTrace]
      by_cases hr : List.filterMap (phaseContribution k) rest = []
      · simp [hr]
      · simp [hr, add_assoc]

theorem mapLookup_aggregate (traces : List roundTripTrace) (k : String) :
    mapLookup (aggregate traces) k =
      if traces.filterMap (phaseContribution k) = [] then none
      else some (traces.filterMap (phaseContribution k)).sum := by
  rw [aggregate, mapLookup_foldl_aggregateTrace]
  simp [mapLookup, mapGet]

/-! ## The loop with the arithmetic of Go -/

theorem SubGo_of_fits (t u : Int) (h1 : minDuration ≤ t - u) (h2 : t - u ≤ maxDuration) :
    Time.SubGo t u = t - u := by
  simp [Time.SubGo, h1, h2]

theorem SubGo_of_below (t u : Int) (h : t - u < minDuration) :
    Time.SubGo t u = minDuration := by
  have hlt : t < u := by
    have : minDuration < 0 := by decide
    omega
  have h1 : ¬ (minDuration ≤ t - u) := not_le.mpr h
  simp [Time.SubGo, h1, Time.Before, hlt]

theorem SubGo_of_above (t u : Int) (h : maxDuration < t - u) :
    Time.SubGo t u = maxDuration := by
  have hlt : ¬ t < u := by
    have : 0 < maxDuration := by decide
    omega
  have h2 : ¬ (t - u ≤ maxDuration) := not_le.mpr h
  simp [Time.SubGo, h2, Time.Before, hlt]

theorem SubGo_nonneg (t u : Int) (h : u ≤ t) : 0 ≤ Time.SubGo t u := by
  have hmin : minDuration < 0 := by decide
  have hmax : 0 < maxDuration := by decide
  by_cases h2 : t - u ≤ maxDuration
  · rw [SubGo_of_fits t u (by omega) h2]; omega
  · rw [SubGo_of_above t u (not_le.mp h2)]; omega

theorem floatLookup_floatAdd {F : Type} (fl : FloatOps F) (m : List (String × F))
    (k k' : String) (v : F) :
    floatLookup (floatAdd fl m k v) k' =
      if k = k' then some (fl.add (floatGet fl m k) v) else floatLookup m k' := by
  induction m with
  | nil => simp [floatAdd, floatLookup, floatGet]
  | cons p rest ih =>
    obtain ⟨q, x⟩ := p
    by_cases hq : q = k
    · subst hq
      by_cases hk : q = k' <;> simp [floatAdd, floatLookup, floatGet, hk]
    · by_cases hk : k = k'
      · subst hk
        simp [floatAdd, floatLookup, floatGet, hq, ih]
      · by_cases hqk : q = k'
        · subst hqk
          simp [floatAdd, floatLookup, hq, hk]
        · simp [floatAdd, floatLookup, hq, hk, hqk, ih]

/-- The loop body read phase by phase: the entry of a phase after one pass depends on the
entry before and on the trace only. -/
theorem floatLookup_aggregateTraceWith {F : Type} (fl : FloatOps F) (d : List (String × F))
    (t : roundTripTrace) (k : String) :
    floatLookup (aggregateTraceWith fl d t) k =
      match phaseContributionWith fl k t with
      | none => floatLookup d k
      | some v => some (fl.add (floatGet fl d k) v) := by
  by_cases h1 : k = "resolve"
  · subst h1
    simp only [aggregateTraceWith, phaseContributionWith]
    split_ifs <;> simp [floatLookup_floatAdd]
  by_cases h2 : k = "connect"
  · subst h2
    simp only [aggregateTraceWith, phaseContributionWith]
    split_ifs <;> simp_all [floatLookup_floatAdd, floatGet]
  by_cases h3 : k = "tls"
  · subst h3
    simp only [aggregateTraceWith, phaseContributionWith]
    split_ifs <;> simp_all [floatLookup_floatAdd, floatGet]
  by_cases h4 : k = "processing"
  · subst h4
    simp only [aggregateTraceWith, phaseContributionWith]
    split_ifs <;> simp_all [floatLookup_floatAdd, floatGet]
  by_cases h5 : k = "transfer"
  · subst h5
    simp only [aggregateTraceWith, phaseContributionWith]
    split_ifs <;> simp_all [floatLookup_floatAdd, floatGet]
  have e1 : ¬ "resolve" = k := fun e => h1 e.symm
  have e2 : ¬ "connect" = k := fun e => h2 e.symm
  have e3 : ¬ "tls" = k := fun e => h3 e.symm
  have e4 : ¬ "processing" = k := fun e => h4 e.symm
  have e5 : ¬ "transfer" = k := fun e => h5 e.symm
  simp only [aggregateTraceWith, phaseContributionWith]
  split_ifs <;> simp [floatLookup_floatAdd, e1, e2, e3, e4, e5]

/-- Two maps that agree on a phase still agree on it after the loop has run over the same
traces. -/
theorem floatLookup_foldl_congr {F : Type} (fl : FloatOps F) (traces : List roundTripTrace)
    (d1 d2 : List (String × F)) (k : String) (h : floatLookup d1 k = floatLookup d2 k) :
    floatLookup (traces.foldl (aggregateTraceWith fl) d1) k =
      floatLookup (traces.foldl (aggregateTraceWith fl) d2) k := by
  induction traces generalizing d1 d2 with
  | nil => exact h
  | cons t rest ih =>
    simp only [List.foldl_cons]
    apply ih
    rw [floatLookup_aggregateTraceWith, floatLookup_aggregateTraceWith]
    simp only [floatGet, h]

theorem aggregateTraceWith_noConn {F : Type} (fl : FloatOps F) (d : List (String × F))
    (t : roundTripTrace) (ht : Time.IsZero t.gotConn = true) :
    aggregateTraceWith fl d t =
      floatAdd fl d "resolve" (fl.seconds (Time.SubGo t.dnsDone t.start)) := by
  simp [aggregateTraceWith, ht]

theorem phaseContributionWith_noConn {F : Type} (fl : FloatOps F) (k : String)
    (t : roundTripTrace) (ht : Time.IsZero t.gotConn = true) (hk : k ≠ "resolve") :
    phaseContributionWith fl k t = none := by
  simp [phaseContributionWith, ht, hk]

theorem aggregateWith_noConn_acc {F : Type} (fl : FloatOps F) (traces : List roundTripTrace)
    (h : ∀ t ∈ traces, Time.IsZero t.gotConn = true) (a : F) :
    traces.foldl (aggregateTraceWith fl) [("resolve", a)] =
      [("resolve", traces.foldl
        (fun acc u => fl.add acc (fl.seconds (Time.SubGo u.dnsDone u.start))) a)] := by
  induction traces generalizing a with
  | nil => rfl
  | cons t rest ih =>
    have ht := h t (List.mem_cons_self _ _)
    have hrest : ∀ u ∈ rest, Time.IsZero u.gotConn = true :=
      fun u hu => h u (List.mem_cons_of_mem _ hu)
    rw [List.foldl_cons, aggregateTraceWith_noConn fl _ t ht]
    simp only [floatAdd, if_true]
    rw [ih hrest]
    rfl

theorem aggregateWith_noConn {F : Type} (fl : FloatOps F) (traces : List roundTripTrace)
    (hne : traces ≠ []) (h : ∀ t ∈ traces, Time.IsZero t.gotConn = true) :
    aggregateWith fl traces =
      [("resolve", traces.foldl
        (fun acc u => fl.add acc (fl.seconds (Time.SubGo u.dnsDone u.start))) fl.zero)] := by
  cases traces with
  | nil => exact absurd rfl hne
  | cons t rest =>
    have ht := h t (List.mem_cons_self _ _)
    have hrest : ∀ u ∈ rest, Time.IsZero u.gotConn = true :=
      fun u hu => h u (List.mem_cons_of_mem _ hu)
    rw [aggregateWith, List.foldl_cons, aggregateTraceWith_noConn fl _ t ht]
    simp only [floatAdd]
    rw [aggregateWith_noConn_acc fl rest hrest]
    rfl

theorem floatAdd_nsOps (m : Durations) (k : String) (v : Int) :
    floatAdd nsOps m k v = mapAdd m k v := by
  induction m with
  | nil => simp [floatAdd, mapAdd, nsOps]
  | cons p rest ih =>
    obtain ⟨q, x⟩ := p
    by_cases hq : q = k
    · simp only [floatAdd, mapAdd, hq, if_true]; rfl
    · simp only [floatAdd, mapAdd, hq, if_false, ih]

/-- On a trace none of whose six durations saturates, the loop body counted in whole
nanoseconds is the loop body with exact differences. -/
theorem aggregateTraceWith_nsOps_of_fits (d : Durations) (t : roundTripTrace)
    (h1 : Time.SubGo t.dnsDone t.start = Time.Sub t.dnsDone t.start)
    (h2 : Time.SubGo t.connectDone t.dnsDone = Time.Sub t.connectDone t.dnsDone)
    (h3 : Time.SubGo t.tlsDone t.tlsStart = Time.Sub t.tlsDone t.tlsStart)
    (h4 : Time.SubGo t.gotConn t.dnsDone = Time.Sub t.gotConn t.dnsDone)
    (h5 : Time.SubGo t.responseStart t.gotConn = Time.Sub t.responseStart t.gotConn)
    (h6 : Time.SubGo t.end_ t.responseStart = Time.Sub t.end_ t.responseStart) :
    aggregateTraceWith nsOps d t = aggregateTrace d t := by
  simp only [aggregateTraceWith, aggregateTrace, floatAdd_nsOps, h1, h2, h3, h4, h5, h6]
  rfl

theorem foldl_modifyAt_end {F : Type} (fl : FloatOps F) (now : Time)
    (l : List roundTripTrace) (i : Nat) (a : F) :
    (modifyAt (fun tr => { tr with end_ := now }) l i).foldl
        (fun acc u => fl.add acc (fl.seconds (Time.SubGo u.dnsDone u.start))) a =
      l.foldl (fun acc u => fl.add acc (fl.seconds (Time.SubGo u.dnsDone u.start))) a := by
  induction l generalizing i a with
  | nil => simp [modifyAt]
  | cons t rest ih => cases i <;> simp [modifyAt, ih]

/-! ## Writes through `current` -/

theorem modifyAt_ne_nil (f : roundTripTrace → roundTripTrace) (l : List roundTripTrace)
    (i : Nat) (h : l ≠ []) : modifyAt f l i ≠ [] := by
  cases l with
  | nil => exact absurd rfl h
  | cons t rest => cases i <;> simp [modifyAt]

theorem forall_mem_modifyAt (P : roundTripTrace → Prop) (f : roundTripTrace → roundTripTrace)
    (hf : ∀ t, P t → P (f t)) (l : List roundTripTrace) (i : Nat) (h : ∀ t ∈ l, P t) :
    ∀ t ∈ modifyAt f l i, P t := by
  induction l generalizing i with
  | nil => simp [modifyAt]
  | cons u rest ih =>
    cases i with
    | zero =>
      intro t ht
      simp only [modifyAt, List.mem_cons] at ht
      rcases ht with ht | ht
      · subst ht; exact hf u (h u (List.mem_cons_self _ _))
      · exact h t (List.mem_cons_of_mem _ ht)
    | succ j =>
      intro t ht
      simp only [modifyAt, List.mem_cons] at ht
      rcases ht with ht | ht
      · subst ht; exact h t (List.mem_cons_self _ _)
      · exact ih j (fun v hv => h v (List.mem_cons_of_mem _ hv)) t ht

/-- C2 (amended). A trace whose `gotConn` is unset contributes only to `resolve`. One pass of
the loop body over it adds `dnsDone.Sub(start).Seconds()` to the `resolve` entry and leaves
every other entry of the map as it was (absent entries stay absent); the duration added is
`dnsDone - start` when that fits a `time.Duration`, and `minDuration` or `maxDuration` when
it does not. Wherever the trace stands in a sequence, the entries of the other phases are
those of the sequence without it. And for every probe run with at least one trace in which
every trace has `gotConn` unset, the completion callback observes exactly one sample, for
the phase `resolve`, the float64 sum of these durations in the order of the traces. -/
theorem doTrace_noConn_only_resolve {F : Type} (fl : FloatOps F) (probeName : String)
    (d : List (String × F)) (pre post : List roundTripTrace) (t : roundTripTrace)
    (ht : Time.IsZero t.gotConn = true)
    (tt : transport) (i : Nat) (now : Time) (result : Bool)
    (hcur : tt.current = some i) (hne : tt.traces ≠ [])
    (hall : ∀ u ∈ tt.traces, Time.IsZero u.gotConn = true) :
    (floatLookup (aggregateTraceWith fl d t) "resolve" =
        some (fl.add (floatGet fl d "resolve")
          (fl.seconds (Time.SubGo t.dnsDone t.start))) ∧
      ∀ k, k ≠ "resolve" → floatLookup (aggregateTraceWith fl d t) k = floatLookup d k) ∧
    ((minDuration ≤ t.dnsDone - t.start ∧ t.dnsDone - t.start ≤ maxDuration →
        Time.SubGo t.dnsDone t.start = t.dnsDone - t.start) ∧
      (t.dnsDone - t.start < minDuration → Time.SubGo t.dnsDone t.start = minDuration) ∧
      (maxDuration < t.dnsDone - t.start → Time.SubGo t.dnsDone t.start = maxDuration)) ∧
    (floatLookup (aggregateWith fl (pre ++ [t])) "resolve" =
        some (fl.add (floatGet fl (aggregateWith fl pre) "resolve")
          (fl.seconds (Time.SubGo t.dnsDone t.start))) ∧
      ∀ k, k ≠ "resolve" →
        floatLookup (aggregateWith fl (pre ++ t :: post)) k =
          floatLookup (aggregateWith fl (pre ++ post)) k) ∧
    (aggregateWith fl tt.traces =
        [("resolve", tt.traces.foldl
          (fun acc u => fl.add acc (fl.seconds (Time.SubGo u.dnsDone u.start))) fl.zero)] ∧
      ∃ tt1, doTrace_doneWith fl tt probeName now result = Except.ok (tt1,
        { name := probeName, bodySize := tt.bodySize,
          observed := [("resolve", tt.traces.foldl
            (fun acc u => fl.add acc (fl.seconds (Time.SubGo u.dnsDone u.start))) fl.zero)],
          success := if result then 1 else 0 })) := by
  refine ⟨⟨?_, ?_⟩, ⟨?_, ?_, ?_⟩, ⟨?_, ?_⟩, ?_, ?_⟩
  · rw [aggregateTraceWith_noConn fl d t ht, floatLookup_floatAdd]; simp
  · intro k hk
    rw [aggregateTraceWith_noConn fl d t ht, floatLookup_floatAdd]
    simp [Ne.symm hk]
  · exact fun h => SubGo_of_fits _ _ h.1 h.2
  · exact fun h => SubGo_of_below _ _ h
  · exact fun h => SubGo_of_above _ _ h
  · simp only [aggregateWith, List.foldl_append, List.foldl_cons, List.foldl_nil]
    rw [aggregateTraceWith_noConn fl _ t ht, floatLookup_floatAdd]; simp
  · intro k hk
    simp only [aggregateWith, List.foldl_append, List.foldl_cons]
    apply floatLookup_foldl_congr
    rw [floatLookup_aggregateTraceWith, phaseContributionWith_noConn fl k t ht hk]
  · exact aggregateWith_noConn fl tt.traces hne hall
  · have hne1 : modifyAt (fun tr => { tr with end_ := now }) tt.traces i ≠ [] :=
      modifyAt_ne_nil _ _ _ hne
    have hall1 : ∀ u ∈ modifyAt (fun tr => { tr with end_ := now }) tt.traces i,
        Time.IsZero u.gotConn = true :=
      forall_mem_modifyAt (fun u => Time.IsZero u.gotConn = true)
        (fun tr => { tr with end_ := now }) (fun _ h => h) _ _ hall
    refine ⟨{ tt with traces := modifyAt (fun tr => { tr with end_ := now }) tt.traces i }, ?_⟩
    simp only [doTrace_doneWith, transport.updateCurrent, hcur]
    rw [aggregateWith_noConn fl _ hne1 hall1, foldl_modifyAt_end]

/-- Witness of C1: two completed plain-HTTP traces (one redirect). -/
theorem doTrace_aggregate_plain_complete_witness :
    ([plainTraceA, plainTraceB] ≠ [] ∧
      ∀ t ∈ [plainTraceA, plainTraceB], t.tls = false ∧ t.allSet) ∧
    mapLookup (aggregate [plainTraceA, plainTraceB]) "resolve" = some (2 + 3) ∧
    mapLookup (aggregate [plainTraceA, plainTraceB]) "connect" = some (4 + 4) ∧
    mapLookup (aggregate [plainTraceA, plainTraceB]) "processing" = some (4 + 5) ∧
    mapLookup (aggregate [plainTraceA, plainTraceB]) "transfer" = some (7 + 8) ∧
    mapLookup (aggregate [plainTraceA, plainTraceB]) "tls" = none :=
  have h := doTrace_aggregate_plain_complete "ingest" [plainTraceA, plainTraceB]
    (by decide) (by decide)
  ⟨⟨by decide, by decide⟩, h.1.trans (by decide), h.2.1.trans (by decide),
    h.2.2.1.trans (by decide), h.2.2.2.1.trans (by decide), h.2.2.2.2.1⟩

/-- Counterexample to C2 as stated: a round trip of today that failed while the name was
being resolved has `start` set and `dnsDone`, `gotConn` unset; the duration the loop adds to
`resolve` is `minDuration`, not `dnsDone - start`. -/
theorem doTrace_noConn_resolve_saturates :
    Time.IsZero dnsFailedTrace.gotConn = true ∧
    dnsFailedTrace.dnsDone - dnsFailedTrace.start = -63082281600000000001 ∧
    Time.SubGo dnsFailedTrace.dnsDone dnsFailedTrace.start = -9223372036854775808 ∧
    floatLookup (aggregateTraceWith nsOps [] dnsFailedTrace) "resolve" =
      some (-9223372036854775808) ∧
    floatLookup (aggregateTraceWith nsOps [] dnsFailedTrace) "resolve" ≠
      some (dnsFailedTrace.dnsDone - dnsFailedTrace.start) := by
  decide

/-- Witness of C2 (amended): a probe run of two traces that never got a connection. -/
theorem doTrace_noConn_only_resolve_witness :
    (Time.IsZero failedTrace.gotConn = true ∧
      (∀ u ∈ [failedTrace, failedTrace], Time.IsZero u.gotConn = true)) ∧
    aggregateWith nsOps [failedTrace, failedTrace] = [("resolve", 8)] :=
  have h := doTrace_noConn_only_resolve nsOps "ingest" [] [plainTraceA] [plainTraceB]
    failedTrace (by decide)
    { name := "ingest", traces := [failedTrace, failedTrace], current := some 1,
      bodySize := 0 } 1 99 false rfl (by decide) (by decide)
  ⟨⟨by decide, by decide⟩, h.2.2.2.1.trans (by decide)⟩

/-! ## TLS round trips -/

/-- Counterexample to C7 as stated: a completed TLS trace with the handshake nested inside
connect (`dnsDone <= tlsStart < tlsDone < connectDone`) whose `connect` value is
`maxDuration`, not `connectDone - dnsDone`. -/
theorem doTrace_tls_connect_saturates :
    farApartTLSTrace.tls = true ∧ farApartTLSTrace.allSet ∧
    farApartTLSTrace.dnsDone ≤ farApartTLSTrace.tlsStart ∧
    farApartTLSTrace.tlsStart < farApartTLSTrace.tlsDone ∧
    farApartTLSTrace.tlsDone < farApartTLSTrace.connectDone ∧
    farApartTLSTrace.connectDone - farApartTLSTrace.dnsDone = 63082281600000000005 ∧
    floatLookup (aggregateWith nsOps [farApartTLSTrace]) "connect" =
      some 9223372036854775807 ∧
    floatLookup (aggregateWith nsOps [farApartTLSTrace]) "connect" ≠
      some (farApartTLSTrace.connectDone - farApartTLSTrace.dnsDone) := by
  decide

/-- C7 (amended). For every fully completed trace with `tls = true` whose timestamps satisfy
`dnsDone <= tlsStart < tlsDone < connectDone` (handshake nested inside connect), the
aggregation yields `connect = connectDone.Sub(dnsDone).Seconds()` and
`tls = tlsDone.Sub(tlsStart).Seconds()` (as the entries of the one-trace run, and as the
amounts added to any running totals); the two durations are `connectDone - dnsDone` and
`tlsDone - tlsStart` when these fit a `time.Duration` and `maxDuration` when they do not,
and both values are non-negative. -/
theorem doTrace_tls_nested_handshake {F : Type} (fl : FloatOps F) (d : List (String × F))
    (t : roundTripTrace) (htls : t.tls = true) (hset : t.allSet)
    (h0 : t.dnsDone ≤ t.tlsStart) (h1 : t.tlsStart < t.tlsDone)
    (h2 : t.tlsDone < t.connectDone) :
    floatLookup (aggregateWith fl [t]) "connect" =
      some (fl.add fl.zero (fl.seconds (Time.SubGo t.connectDone t.dnsDone))) ∧
    floatLookup (aggregateWith fl [t]) "tls" =
      some (fl.add fl.zero (fl.seconds (Time.SubGo t.tlsDone t.tlsStart))) ∧
    floatLookup (aggregateTraceWith fl d t) "connect" =
      some (fl.add (floatGet fl d "connect")
        (fl.seconds (Time.SubGo t.connectDone t.dnsDone))) ∧
    floatLookup (aggregateTraceWith fl d t) "tls" =
      some (fl.add (floatGet fl d "tls") (fl.seconds (Time.SubGo t.tlsDone t.tlsStart))) ∧
    (t.connectDone - t.dnsDone ≤ maxDuration →
      Time.SubGo t.connectDone t.dnsDone = t.connectDone - t.dnsDone) ∧
    (maxDuration < t.connectDone - t.dnsDone →
      Time.SubGo t.connectDone t.dnsDone = maxDuration) ∧
    (t.tlsDone - t.tlsStart ≤ maxDuration →
      Time.SubGo t.tlsDone t.tlsStart = t.tlsDone - t.tlsStart) ∧
    (maxDuration < t.tlsDone - t.tlsStart →
      Time.SubGo t.tlsDone t.tlsStart = maxDuration) ∧
    0 ≤ Time.SubGo t.connectDone t.dnsDone ∧ 0 ≤ Time.SubGo t.tlsDone t.tlsStart ∧
    fl.nonneg (fl.add fl.zero (fl.seconds (Time.SubGo t.connectDone t.dnsDone))) ∧
    fl.nonneg (fl.add fl.zero (fl.seconds (Time.SubGo t.tlsDone t.tlsStart))) := by
  obtain ⟨_, _, _, h4, _, _, _, _⟩ := hset
  have hz : Time.IsZero t.gotConn = false := by simp [Time.IsZero, h4]
  have hc : phaseContributionWith fl "connect" t =
      some (fl.seconds (Time.SubGo t.connectDone t.dnsDone)) := by
    simp [phaseContributionWith, hz, htls]
  have htl : phaseContributionWith fl "tls" t =
      some (fl.seconds (Time.SubGo t.tlsDone t.tlsStart)) := by
    simp [phaseContributionWith, hz, htls]
  have hmin : minDuration < 0 := by decide
  have hcd : t.dnsDone ≤ t.connectDone := le_of_lt (lt_of_le_of_lt h0 (lt_trans h1 h2))
  have hts : t.tlsStart ≤ t.tlsDone := le_of_lt h1
  have hcd0 : (0 : Int) ≤ t.connectDone - t.dnsDone := sub_nonneg.mpr hcd
  have hts0 : (0 : Int) ≤ t.tlsDone - t.tlsStart := sub_nonneg.mpr hts
  have n1 : 0 ≤ Time.SubGo t.connectDone t.dnsDone := SubGo_nonneg _ _ hcd
  have n2 : 0 ≤ Time.SubGo t.tlsDone t.tlsStart := SubGo_nonneg _ _ hts
  refine ⟨?_, ?_, ?_, ?_, ?_, ?_, ?_, ?_, n1, n2, ?_, ?_⟩
  · simp only [aggregateWith, List.foldl_cons, List.foldl_nil]
    rw [floatLookup_aggregateTraceWith, hc]; rfl
  · simp only [aggregateWith, List.foldl_cons, List.foldl_nil]
    rw [floatLookup_aggregateTraceWith, htl]; rfl
  · rw [floatLookup_aggregateTraceWith, hc]
  · rw [floatLookup_aggregateTraceWith, htl]
  · exact fun h => SubGo_of_fits _ _ (le_trans (le_of_lt hmin) hcd0) h
  · exact fun h => SubGo_of_above _ _ h
  · exact fun h => SubGo_of_fits _ _ (le_trans (le_of_lt hmin) hts0) h
  · exact fun h => SubGo_of_above _ _ h
  · exact fl.add_nonneg _ _ fl.zero_nonneg (fl.seconds_nonneg _ n1)
  · exact fl.add_nonneg _ _ fl.zero_nonneg (fl.seconds_nonneg _ n2)

/-- Witness of C7 (amended). -/
theorem doTrace_tls_nested_handshake_witness :
    (nestedTLSTrace.tls = true ∧ nestedTLSTrace.allSet ∧
      nestedTLSTrace.dnsDone ≤ nestedTLSTrace.tlsStart ∧
      nestedTLSTrace.tlsStart < nestedTLSTrace.tlsDone ∧
      nestedTLSTrace.tlsDone < nestedTLSTrace.connectDone) ∧
    floatLookup (aggregateWith nsOps [nestedTLSTrace]) "connect" = some 45 ∧
    floatLookup (aggregateWith nsOps [nestedTLSTrace]) "tls" = some 10 :=
  have h := doTrace_tls_nested_handshake nsOps [] nestedTLSTrace (by decide) (by decide)
    (by decide) (by decide) (by decide)
  ⟨⟨by decide, by decide, by decide, by decide, by decide⟩, h.1.trans (by decide),
    h.2.1.trans (by decide)⟩

/-! ## The `ConnectStart` backfill -/

theorem modifyAt_eq_set (f : roundTripTrace → roundTripTrace) (l : List roundTripTrace)
    (i : Nat) (tr : roundTripTrace) (h : l[i]? = some tr) :
    modifyAt f l i = l.set i (f tr) := by
  induction l generalizing i with
  | nil => simp at h
  | cons t rest ih =>
    cases i with
    | zero =>
      simp only [List.getElem?_cons_zero, Option.some.injEq] at h
      simp [modifyAt, h]
    | succ j =>
      simp only [List.getElem?_cons_succ] at h
      simp [modifyAt, ih j h]

theorem modifyAt_id_of (f : roundTripTrace → roundTripTrace) (l : List roundTripTrace)
    (i : Nat) (tr : roundTripTrace) (h : l[i]? = some tr) (hf : f tr = tr) :
    modifyAt f l i = l := by
  induction l generalizing i with
  | nil => simp at h
  | cons t rest ih =>
    cases i with
    | zero =>
      simp only [List.getElem?_cons_zero, Option.some.injEq] at h
      simp [modifyAt, h, hf]
    | succ j =>
      simp only [List.getElem?_cons_succ] at h
      simp [modifyAt, ih j h]

theorem getElem?_modifyAt (f : roundTripTrace → roundTripTrace) (l : List roundTripTrace)
    (i : Nat) : (modifyAt f l i)[i]? = (l[i]?).map f := by
  induction l generalizing i with
  | nil => simp [modifyAt]
  | cons t rest ih =>
    cases i with
    | zero => simp [modifyAt]
    | succ j => simp [modifyAt, ih j]

/-- A hook other than the two DNS hooks keeps `current` and keeps a current trace whose
`start` and `dnsDone` coincide in that state. -/
theorem fire_notDNS_keeps_resolve_zero (ts ts1 : transport) (ev : HookEvent) (i : Nat)
    (hev : ev.notDNS = true) (hcur : ts.current = some i)
    (hz : ∃ tr, ts.traces[i]? = some tr ∧ tr.dnsDone = tr.start)
    (hfire : ts.fire ev = Except.ok ts1) :
    ts1.current = some i ∧ ∃ tr, ts1.traces[i]? = some tr ∧ tr.dnsDone = tr.start := by
  obtain ⟨tr, hget, heq⟩ := hz
  obtain ⟨name, traces, current, bodySize⟩ := ts
  simp only at hcur hget
  subst hcur
  cases ev with
  | DNSStart now => simp [HookEvent.notDNS] at hev
  | DNSDone now => simp [HookEvent.notDNS] at hev
  | ConnectStart now =>
    simp only [transport.fire, transport.ConnectStart, transport.updateCurrent,
      Except.ok.injEq] at hfire
    subst hfire
    refine ⟨rfl, ?_⟩
    simp only [getElem?_modifyAt, hget, Option.map_some']
    refine ⟨_, rfl, ?_⟩
    by_cases hd : Time.IsZero tr.dnsDone = true
    · simp only [if_pos hd]
    · simp only [if_neg hd]; exact heq
  | ConnectDone now =>
    simp only [transport.fire, transport.ConnectDone, transport.updateCurrent,
      Except.ok.injEq] at hfire
    subst hfire
    exact ⟨rfl, by simp [getElem?_modifyAt, hget, heq]⟩
  | GotConn now =>
    simp only [transport.fire, transport.GotConn, transport.updateCurrent,
      Except.ok.injEq] at hfire
    subst hfire
    exact ⟨rfl, by simp [getElem?_modifyAt, hget, heq]⟩
  | GotFirstResponseByte now =>
    simp only [transport.fire, transport.GotFirstResponseByte, transport.updateCurrent,
      Except.ok.injEq] at hfire
    subst hfire
    exact ⟨rfl, by simp [getElem?_modifyAt, hget, heq]⟩
  | TLSHandshakeStart now =>
    simp only [transport.fire, transport.TLSHandshakeStart, transport.updateCurrent,
      Except.ok.injEq] at hfire
    subst hfire
    exact ⟨rfl, by simp [getElem?_modifyAt, hget, heq]⟩
  | TLSHandshakeDone now =>
    simp only [transport.fire, transport.TLSHandshakeDone, transport.updateCurrent,
      Except.ok.injEq] at hfire
    subst hfire
    exact ⟨rfl, by simp [getElem?_modifyAt, hget, heq]⟩

theorem fireAll_notDNS_keeps_resolve_zero (evs : List HookEvent) (ts ts1 : transport)
    (i : Nat) (hev : ∀ ev ∈ evs, ev.notDNS = true) (hcur : ts.current = some i)
    (hz : ∃ tr, ts.traces[i]? = some tr ∧ tr.dnsDone = tr.start)
    (hfire : ts.fireAll evs = Except.ok ts1) :
    ts1.current = some i ∧ ∃ tr, ts1.traces[i]? = some tr ∧ tr.dnsDone = tr.start := by
  induction evs generalizing ts with
  | nil =>
    simp only [transport.fireAll, Except.ok.injEq] at hfire
    subst hfire
    exact ⟨hcur, hz⟩
  | cons ev rest ih =>
    simp only [transport.fireAll] at hfire
    cases hstep : ts.fire ev with
    | error p => simp [hstep] at hfire
    | ok t1 =>
      simp only [hstep] at hfire
      have h1 := fire_notDNS_keeps_resolve_zero ts t1 ev i
        (hev ev (List.mem_cons_self _ _)) hcur hz hstep
      exact ih t1 (fun e he => hev e (List.mem_cons_of_mem _ he)) h1.1 h1.2 hfire

/-- C8. When `ConnectStart` fires at time `now` on a current trace whose `dnsDone` is unset,
it sets `start = dnsDone = now` on that trace and changes nothing else; the trace then adds
exactly zero to `resolve`, creating the entry (a zero-valued sample when it is the only
trace), and it still does after any later hooks other than the two DNS hooks. When
`dnsDone` is already set, `ConnectStart` leaves the transport, and so every timestamp of
the trace, unchanged. -/
theorem ConnectStart_backfill (ts : transport) (i : Nat) (tr : roundTripTrace) (now : Time)
    (hcur : ts.current = some i) (hget : ts.traces[i]? = some tr) :
    (Time.IsZero tr.dnsDone = true →
      ts.ConnectStart now = Except.ok
        { ts with traces := ts.traces.set i { tr with start := now, dnsDone := now } } ∧
      (∀ d, mapLookup (aggregateTrace d { tr with start := now, dnsDone := now }) "resolve" =
        some (mapGet d "resolve" + 0)) ∧
      mapLookup (aggregate [{ tr with start := now, dnsDone := now }]) "resolve" = some 0 ∧
      ∀ ts1 evs ts2, ts.ConnectStart now = Except.ok ts1 →
        (∀ ev ∈ evs, ev.notDNS = true) → ts1.fireAll evs = Except.ok ts2 →
        ∃ tr2, ts2.current = some i ∧ ts2.traces[i]? = some tr2 ∧
          Time.Sub tr2.dnsDone tr2.start = 0 ∧
          ∀ d, mapLookup (aggregateTrace d tr2) "resolve" = some (mapGet d "resolve" + 0)) ∧
    (Time.IsZero tr.dnsDone = false → ts.ConnectStart now = Except.ok ts) := by
  constructor
  · intro hz
    have hstep : ts.ConnectStart now = Except.ok
        { ts with traces := ts.traces.set i { tr with start := now, dnsDone := now } } := by
      simp only [transport.ConnectStart, transport.updateCurrent, hcur]
      rw [modifyAt_eq_set _ _ _ tr hget]
      simp [hz]
    refine ⟨hstep, ?_, ?_, ?_⟩
    · intro d
      rw [mapLookup_aggregateTrace]
      simp [phaseContribution, Time.Sub]
    · simp [mapLookup_aggregate, phaseContribution, Time.Sub]
    · intro ts1 evs ts2 h1 hev h2
      rw [hstep] at h1
      simp only [Except.ok.injEq] at h1
      subst h1
      have hi : i < ts.traces.length := by
        rcases Nat.lt_or_ge i ts.traces.length with h | h
        · exact h
        · rw [List.getElem?_eq_none h] at hget
          cases hget
      have h0 : ∃ t0, (ts.traces.set i { tr with start := now, dnsDone := now })[i]? =
          some t0 ∧ t0.dnsDone = t0.start :=
        ⟨{ tr with start := now, dnsDone := now }, by simp [hi], rfl⟩
      obtain ⟨hc2, tr2, hg2, he2⟩ :=
        fireAll_notDNS_keeps_resolve_zero evs
          { ts with traces := ts.traces.set i { tr with start := now, dnsDone := now } }
          ts2 i hev hcur h0 h2
      refine ⟨tr2, hc2, hg2, ?_, ?_⟩
      · simp [Time.Sub, he2]
      · intro d
        rw [mapLookup_aggregateTrace]
        simp [phaseContribution, Time.Sub, he2]
  · intro hz
    obtain ⟨name, traces, current, bodySize⟩ := ts
    simp only at hcur hget
    subst hcur
    simp only [transport.ConnectStart, transport.updateCurrent]
    rw [modifyAt_id_of _ _ _ tr hget (by simp [hz])]

/-- Witness of C8: a direct-IP round trip, `ConnectStart` firing at time 3. -/
theorem ConnectStart_backfill_witness :
    ((transport.mk "ingest" [roundTripTrace.empty] (some 0) 0).current = some 0 ∧
      (transport.mk "ingest" [roundTripTrace.empty] (some 0) 0).traces[0]? =
        some roundTripTrace.empty ∧
      Time.IsZero roundTripTrace.empty.dnsDone = true) ∧
    (transport.mk "ingest" [roundTripTrace.empty] (some 0) 0).ConnectStart 3 =
      Except.ok (transport.mk "ingest"
        [{ roundTripTrace.empty with start := 3, dnsDone := 3 }] (some 0) 0) ∧
    mapLookup (aggregate [{ roundTripTrace.empty with start := 3, dnsDone := 3 }]) "resolve" =
      some 0 :=
  have h := (ConnectStart_backfill (transport.mk "ingest" [roundTripTrace.empty] (some 0) 0)
    0 roundTripTrace.empty 3 rfl rfl).1 rfl
  ⟨⟨rfl, rfl, rfl⟩, h.1, h.2.2.1⟩

/-! ## Earliest certificate expiry -/

theorem earliestStep_eq (acc : Time) (c : Certificate) :
    earliestStep acc c =
      if c.NotAfter = 0 then acc
      else if acc = 0 then c.NotAfter
      else if c.NotAfter < acc then c.NotAfter else acc := by
  unfold earliestStep Time.IsZero Time.Before
  by_cases h1 : c.NotAfter = 0
  · simp [h1]
  · by_cases h2 : acc = 0
    · simp [h1, h2]
    · by_cases h3 : c.NotAfter < acc <;> simp [h1, h2, h3]

/-- The loop invariant of the earliest-expiry loop, for an arbitrary starting value. -/
theorem earliest_foldl (l : List Certificate) (acc : Time) :
    (l.foldl earliestStep acc = 0 ↔ acc = 0 ∧ ∀ c ∈ l, c.NotAfter = 0) ∧
    (l.foldl earliestStep acc = acc ∨ ∃ c ∈ l, c.NotAfter = l.foldl earliestStep acc) ∧
    (acc ≠ 0 → l.foldl earliestStep acc ≤ acc) ∧
    (∀ c ∈ l, c.NotAfter ≠ 0 → l.foldl earliestStep acc ≤ c.NotAfter) := by
  induction l generalizing acc with
  | nil => simp
  | cons d rest ih =>
    rw [List.foldl_cons]
    obtain ⟨ih1, ih2, ih3, ih4⟩ := ih (earliestStep acc d)
    have hs := earliestStep_eq acc d
    by_cases h1 : d.NotAfter = 0
    · have hacc : earliestStep acc d = acc := by rw [hs]; simp [h1]
      rw [hacc] at ih1 ih2 ih3 ih4 ⊢
      refine ⟨?_, ?_, ih3, ?_⟩
      · rw [ih1]; simp [h1]
      · rcases ih2 with h | ⟨c, hc, he⟩
        · exact Or.inl h
        · exact Or.inr ⟨c, List.mem_cons_of_mem _ hc, he⟩
      · intro c hc hne
        rcases List.mem_cons.mp hc with h | h
        · subst h; exact absurd h1 hne
        · exact ih4 c h hne
    · by_cases h2 : acc = 0
      · have hacc : earliestStep acc d = d.NotAfter := by rw [hs]; simp [h1, h2]
        rw [hacc] at ih1 ih2 ih3 ih4 ⊢
        refine ⟨?_, ?_, ?_, ?_⟩
        · rw [ih1]; simp [h1]
        · rcases ih2 with h | ⟨c, hc, he⟩
          · exact Or.inr ⟨d, List.mem_cons_self _ _, h.symm⟩
          · exact Or.inr ⟨c, List.mem_cons_of_mem _ hc, he⟩
        · intro h; exact absurd h2 h
        · intro c hc hne
          rcases List.mem_cons.mp hc with h | h
          · subst h; exact ih3 h1
          · exact ih4 c h hne
      · by_cases h3 : d.NotAfter < acc
        · have hacc : earliestStep acc d = d.NotAfter := by rw [hs]; simp [h1, h2, h3]
          rw [hacc] at ih1 ih2 ih3 ih4 ⊢
          refine ⟨?_, ?_, ?_, ?_⟩
          · rw [ih1]; simp [h1, h2]
          · rcases ih2 with h | ⟨c, hc, he⟩
            · exact Or.inr ⟨d, List.mem_cons_self _ _, h.symm⟩
            · exact Or.inr ⟨c, List.mem_cons_of_mem _ hc, he⟩
          · intro _; exact le_trans (ih3 h1) (le_of_lt h3)
          · intro c hc hne
            rcases List.mem_cons.mp hc with h | h
            · subst h; exact ih3 h1
            · exact ih4 c h hne
        · have hacc : earliestStep acc d = acc := by rw [hs]; simp [h1, h2, h3]
          rw [hacc] at ih1 ih2 ih3 ih4 ⊢
          refine ⟨?_, ?_, ih3, ?_⟩
          · rw [ih1]; simp [h2]
          · rcases ih2 with h | ⟨c, hc, he⟩
            · exact Or.inl h
            · exact Or.inr ⟨c, List.mem_cons_of_mem _ hc, he⟩
          · intro c hc hne
            rcases List.mem_cons.mp hc with h | h
            · subst h; exact le_trans (ih3 h2) (not_lt.mp h3)
            · exact ih4 c h hne

/-- The earliest-expiry loop returns the zero time exactly when no certificate has a non-zero
`NotAfter`, and otherwise the least non-zero `NotAfter` of the list. -/
theorem earliestOf_spec (certs : List Certificate) :
    (earliestOf certs = 0 ↔ ∀ c ∈ certs, c.NotAfter = 0) ∧
    (earliestOf certs ≠ 0 → ∃ c ∈ certs, c.NotAfter = earliestOf certs) ∧
    (∀ c ∈ certs, c.NotAfter ≠ 0 → earliestOf certs ≤ c.NotAfter) := by
  obtain ⟨h1, h2, _, h4⟩ := earliest_foldl certs Time.zero
  refine ⟨?_, ?_, h4⟩
  · unfold earliestOf; rw [h1]; simp [Time.zero]
  · intro hne
    rcases h2 with h | h
    · exact absurd h hne
    · exact h

/-- C5. `getEarliestCertExpiry` returns the zero time when no peer certificate has a
non-zero `NotAfter`; otherwise it returns a non-zero `NotAfter` of the list that is at most
every non-zero `NotAfter` of the list, wherever the zero-valued ones stand. For certificates
with `NotAfter` values zero, `T1` and `T2`, `T1 < T2`, in any order, it returns `T1`. -/
theorem getEarliestCertExpiry_min (state : ConnectionState) (c0 c1 c2 : Certificate)
    (l : List Certificate) (h0 : Time.IsZero c0.NotAfter = true)
    (h1 : Time.IsZero c1.NotAfter = false) (h12 : c1.NotAfter < c2.NotAfter)
    (hl : l.Perm [c0, c1, c2]) :
    ((∀ c ∈ state.PeerCertificates, Time.IsZero c.NotAfter = true) →
      getEarliestCertExpiry state = Time.zero) ∧
    ((∃ c ∈ state.PeerCertificates, Time.IsZero c.NotAfter = false) →
      Time.IsZero (getEarliestCertExpiry state) = false ∧
      (∃ c ∈ state.PeerCertificates, c.NotAfter = getEarliestCertExpiry state) ∧
      ∀ c ∈ state.PeerCertificates, Time.IsZero c.NotAfter = false →
        getEarliestCertExpiry state ≤ c.NotAfter) ∧
    getEarliestCertExpiry { state with PeerCertificates := l } = c1.NotAfter := by
  refine ⟨?_, ?_, ?_⟩
  · intro hall
    obtain ⟨hz, _, _⟩ := earliestOf_spec state.PeerCertificates
    exact hz.mpr fun c hc => by simpa [Time.IsZero] using hall c hc
  · rintro ⟨c, hc, hcz⟩
    obtain ⟨hz, hmem, hle⟩ := earliestOf_spec state.PeerCertificates
    have hne : earliestOf state.PeerCertificates ≠ 0 := by
      intro h
      have := hz.mp h c hc
      simp [Time.IsZero, this] at hcz
    refine ⟨?_, hmem hne, ?_⟩
    · simpa [Time.IsZero, getEarliestCertExpiry] using hne
    · intro d hd hdz
      exact hle d hd (by simpa [Time.IsZero] using hdz)
  · obtain ⟨hz, hmem, hle⟩ := earliestOf_spec l
    have h0' : c0.NotAfter = 0 := by simpa [Time.IsZero] using h0
    have h1' : c1.NotAfter ≠ 0 := by simpa [Time.IsZero] using h1
    have hc1 : c1 ∈ l := hl.mem_iff.mpr (by simp)
    have hne : earliestOf l ≠ 0 := fun h => h1' (hz.mp h c1 hc1)
    obtain ⟨c, hc, he⟩ := hmem hne
    have hle1 := hle c1 hc1 h1'
    have hc' : c ∈ [c0, c1, c2] := hl.mem_iff.mp hc
    simp only [List.mem_cons, List.mem_singleton, List.not_mem_nil, or_false] at hc'
    show earliestOf l = c1.NotAfter
    rcases hc' with h | h | h
    · subst h; exact absurd (he.symm.trans h0') hne
    · subst h; exact he.symm
    · subst h
      rw [← he] at hle1
      exact absurd (lt_of_lt_of_le h12 hle1) (lt_irrefl _)

/-- Witness of C5. -/
theorem getEarliestCertExpiry_min_witness :
    (Time.IsZero (certExpiring 0).NotAfter = true ∧
      Time.IsZero (certExpiring 7).NotAfter = false ∧
      (certExpiring 7).NotAfter < (certExpiring 9).NotAfter) ∧
    getEarliestCertExpiry
      (stateOf [certExpiring 9, certExpiring 0, certExpiring 7] []) = 7 :=
  ⟨⟨by decide, by decide, by decide⟩,
    (getEarliestCertExpiry_min (stateOf [] []) (certExpiring 0) (certExpiring 7)
      (certExpiring 9) [certExpiring 9, certExpiring 0, certExpiring 7]
      (by decide) (by decide) (by decide) (by decide)).2.2⟩

/-! ## Last chain expiry -/

theorem lastChainStep_eq (acc : Time) (chain : List Certificate) :
    lastChainStep acc chain =
      if acc = 0 ∨ acc < earliestOf chain then earliestOf chain else acc := by
  unfold lastChainStep Time.IsZero Time.Before
  by_cases h1 : acc = 0
  · simp [h1]
  · by_cases h2 : acc < earliestOf chain <;> simp [h1, h2]

theorem earliestOf_nonneg (chain : List Certificate) (h : ∀ c ∈ chain, 0 ≤ c.NotAfter) :
    0 ≤ earliestOf chain := by
  obtain ⟨_, hmem, _⟩ := earliestOf_spec chain
  by_cases hz : earliestOf chain = 0
  · rw [hz]
  · obtain ⟨c, hc, he⟩ := hmem hz
    rw [← he]; exact h c hc

/-- The loop over chains when every chain has a non-zero earliest expiry. -/
theorem lastChain_foldl_nonzero (chains : List (List Certificate)) (acc : Time)
    (h : ∀ chain ∈ chains, earliestOf chain ≠ 0) :
    (acc ≠ 0 → acc ≤ chains.foldl lastChainStep acc) ∧
    (∀ chain ∈ chains, earliestOf chain ≤ chains.foldl lastChainStep acc) ∧
    (chains.foldl lastChainStep acc = acc ∨
      ∃ chain ∈ chains, earliestOf chain = chains.foldl lastChainStep acc) := by
  induction chains generalizing acc with
  | nil => simp
  | cons ch rest ih =>
    rw [List.foldl_cons]
    have hch := h ch (List.mem_cons_self _ _)
    obtain ⟨ih1, ih2, ih3⟩ := ih (lastChainStep acc ch)
      (fun c hc => h c (List.mem_cons_of_mem _ hc))
    have hs := lastChainStep_eq acc ch
    by_cases hc : acc = 0 ∨ acc < earliestOf ch
    · have hacc : lastChainStep acc ch = earliestOf ch := by rw [hs]; simp [hc]
      rw [hacc] at ih1 ih2 ih3 ⊢
      refine ⟨?_, ?_, ?_⟩
      · intro hne
        rcases hc with hc | hc
        · exact absurd hc hne
        · exact le_trans (le_of_lt hc) (ih1 hch)
      · intro c hcm
        rcases List.mem_cons.mp hcm with e | e
        · subst e; exact ih1 hch
        · exact ih2 c e
      · rcases ih3 with e | ⟨c, hcm, e⟩
        · exact Or.inr ⟨ch, List.mem_cons_self _ _, e.symm⟩
        · exact Or.inr ⟨c, List.mem_cons_of_mem _ hcm, e⟩
    · have hacc : lastChainStep acc ch = acc := by rw [hs]; simp [hc]
      rw [hacc] at ih1 ih2 ih3 ⊢
      have hne : acc ≠ 0 := fun e => hc (Or.inl e)
      have hle : earliestOf ch ≤ acc := not_lt.mp fun e => hc (Or.inr e)
      refine ⟨ih1, ?_, ?_⟩
      · intro c hcm
        rcases List.mem_cons.mp hcm with e | e
        · subst e; exact le_trans hle (ih1 hne)
        · exact ih2 c e
      · rcases ih3 with e | ⟨c, hcm, e⟩
        · exact Or.inl e
        · exact Or.inr ⟨c, List.mem_cons_of_mem _ hcm, e⟩

/-- The loop over chains when no expiry lies before the zero time. -/
theorem lastChain_foldl_nonneg (chains : List (List Certificate)) (acc : Time)
    (hacc0 : 0 ≤ acc) (h : ∀ chain ∈ chains, 0 ≤ earliestOf chain) :
    acc ≤ chains.foldl lastChainStep acc ∧
    (∀ chain ∈ chains, earliestOf chain ≤ chains.foldl lastChainStep acc) ∧
    (chains.foldl lastChainStep acc = acc ∨
      ∃ chain ∈ chains, earliestOf chain = chains.foldl lastChainStep acc) := by
  induction chains generalizing acc with
  | nil => simp
  | cons ch rest ih =>
    rw [List.foldl_cons]
    have hch := h ch (List.mem_cons_self _ _)
    have hs := lastChainStep_eq acc ch
    by_cases hc : acc = 0 ∨ acc < earliestOf ch
    · have hacc : lastChainStep acc ch = earliestOf ch := by rw [hs]; simp [hc]
      obtain ⟨ih1, ih2, ih3⟩ := ih (earliestOf ch) hch
        (fun c hcm => h c (List.mem_cons_of_mem _ hcm))
      rw [hacc]
      refine ⟨?_, ?_, ?_⟩
      · rcases hc with hc | hc
        · rw [hc]; exact le_trans hch ih1
        · exact le_trans (le_of_lt hc) ih1
      · intro c hcm
        rcases List.mem_cons.mp hcm with e | e
        · subst e; exact ih1
        · exact ih2 c e
      · rcases ih3 with e | ⟨c, hcm, e⟩
        · exact Or.inr ⟨ch, List.mem_cons_self _ _, e.symm⟩
        · exact Or.inr ⟨c, List.mem_cons_of_mem _ hcm, e⟩
    · have hacc : lastChainStep acc ch = acc := by rw [hs]; simp [hc]
      obtain ⟨ih1, ih2, ih3⟩ := ih acc hacc0
        (fun c hcm => h c (List.mem_cons_of_mem _ hcm))
      rw [hacc]
      have hle : earliestOf ch ≤ acc := not_lt.mp fun e => hc (Or.inr e)
      refine ⟨ih1, ?_, ?_⟩
      · intro c hcm
        rcases List.mem_cons.mp hcm with e | e
        · subst e; exact le_trans hle ih1
        · exact ih2 c e
      · rcases ih3 with e | ⟨c, hcm, e⟩
        · exact Or.inl e
        · exact Or.inr ⟨c, List.mem_cons_of_mem _ hcm, e⟩

/-- The result of the loop over chains is an upper bound of the per-chain earliest
expiries that is attained (the zero time for no chain at all), under either of the two
conditions on the chains. -/
theorem lastChain_max (chains : List (List Certificate))
    (h : (∀ chain ∈ chains, earliestOf chain ≠ 0) ∨
      (∀ chain ∈ chains, ∀ c ∈ chain, 0 ≤ c.NotAfter)) :
    (∀ chain ∈ chains, earliestOf chain ≤ chains.foldl lastChainStep Time.zero) ∧
    (chains ≠ [] →
      ∃ chain ∈ chains, earliestOf chain = chains.foldl lastChainStep Time.zero) ∧
    (chains = [] → chains.foldl lastChainStep Time.zero = Time.zero) := by
  refine ⟨?_, ?_, fun e => by rw [e]; rfl⟩
  · rcases h with h | h
    · exact (lastChain_foldl_nonzero chains Time.zero h).2.1
    · exact (lastChain_foldl_nonneg chains Time.zero (le_refl _)
        (fun ch hch => earliestOf_nonneg ch (h ch hch))).2.1
  · intro hne
    cases chains with
    | nil => exact absurd rfl hne
    | cons ch rest =>
      have hstep : lastChainStep Time.zero ch = earliestOf ch := by
        rw [lastChainStep_eq]; simp [Time.zero]
      rw [List.foldl_cons, hstep]
      have h4 : rest.foldl lastChainStep (earliestOf ch) = earliestOf ch ∨
          ∃ chain ∈ rest, earliestOf chain = rest.foldl lastChainStep (earliestOf ch) := by
        rcases h with h | h
        · exact (lastChain_foldl_nonzero rest (earliestOf ch)
            (fun c hc => h c (List.mem_cons_of_mem _ hc))).2.2
        · exact (lastChain_foldl_nonneg rest (earliestOf ch)
            (earliestOf_nonneg ch (h ch (List.mem_cons_self _ _)))
            (fun c hc => earliestOf_nonneg c (h c (List.mem_cons_of_mem _ hc)))).2.2
      rcases h4 with e | ⟨c, hc, e⟩
      · exact ⟨ch, List.mem_cons_self _ _, e.symm⟩
      · exact ⟨c, List.mem_cons_of_mem _ hc, e⟩

/-- Counterexample to C6 as stated: with an expiry before the zero time in one chain and a
chain whose only `NotAfter` is the zero value, the result depends on the order of the
chains, and in the second order it is not the maximum of the per-chain earliest expiries. -/
theorem getLastChainExpiry_order_dependent :
    earliestOf [certExpiring (-5)] = -5 ∧ earliestOf [certExpiring 0] = 0 ∧
    getLastChainExpiry (stateOf [] [[certExpiring (-5)], [certExpiring 0]]) = 0 ∧
    getLastChainExpiry (stateOf [] [[certExpiring 0], [certExpiring (-5)]]) = -5 ∧
    getLastChainExpiry (stateOf [] [[certExpiring (-5)], [certExpiring 0]]) ≠
      getLastChainExpiry (stateOf [] [[certExpiring 0], [certExpiring (-5)]]) := by
  decide

/-- C6 (amended). For every list of verified chains in which every chain has a non-zero
earliest expiry, or in which no `NotAfter` lies before the zero time, `getLastChainExpiry`
returns the maximum over the chains of each chain's earliest non-zero `NotAfter` (the
per-chain value of the loop of `getEarliestCertExpiry`): an upper bound of the per-chain
values that one chain attains, the zero time for no chain at all. The result is the same for
every reordering of the chains, and for two chains whose per-chain earliest expiries are
`T1 < T2`, `T2` non-zero, it is `T2` in either order. -/
theorem getLastChainExpiry_max (state : ConnectionState) (reordered : List (List Certificate))
    (a b : List Certificate)
    (h : (∀ chain ∈ state.VerifiedChains, Time.IsZero (earliestOf chain) = false) ∨
      (∀ chain ∈ state.VerifiedChains, ∀ c ∈ chain,
        Time.Before c.NotAfter Time.zero = false))
    (hperm : reordered.Perm state.VerifiedChains)
    (hab : earliestOf a < earliestOf b) (hb : Time.IsZero (earliestOf b) = false) :
    (∀ chain,
      earliestOf chain = getEarliestCertExpiry { state with PeerCertificates := chain }) ∧
    (∀ chain ∈ state.VerifiedChains, earliestOf chain ≤ getLastChainExpiry state) ∧
    (state.VerifiedChains ≠ [] →
      ∃ chain ∈ state.VerifiedChains, earliestOf chain = getLastChainExpiry state) ∧
    (state.VerifiedChains = [] → getLastChainExpiry state = Time.zero) ∧
    getLastChainExpiry { state with VerifiedChains := reordered } = getLastChainExpiry state ∧
    getLastChainExpiry { state with VerifiedChains := [a, b] } = earliestOf b ∧
    getLastChainExpiry { state with VerifiedChains := [b, a] } = earliestOf b := by
  have h' : (∀ chain ∈ state.VerifiedChains, earliestOf chain ≠ 0) ∨
      (∀ chain ∈ state.VerifiedChains, ∀ c ∈ chain, 0 ≤ c.NotAfter) := by
    rcases h with h | h
    · exact Or.inl fun ch hch => by simpa [Time.IsZero] using h ch hch
    · exact Or.inr fun ch hch c hc => by
        simpa [Time.Before, Time.zero] using h ch hch c hc
  have hr : (∀ chain ∈ reordered, earliestOf chain ≠ 0) ∨
      (∀ chain ∈ reordered, ∀ c ∈ chain, 0 ≤ c.NotAfter) := by
    rcases h' with h | h
    · exact Or.inl fun ch hch => h ch (hperm.mem_iff.mp hch)
    · exact Or.inr fun ch hch => h ch (hperm.mem_iff.mp hch)
  obtain ⟨m1, m2, m3⟩ := lastChain_max state.VerifiedChains h'
  obtain ⟨r1, r2, r3⟩ := lastChain_max reordered hr
  have hb' : earliestOf b ≠ 0 := by simpa [Time.IsZero] using hb
  refine ⟨fun _ => rfl, m1, m2, m3, ?_, ?_, ?_⟩
  · show reordered.foldl lastChainStep Time.zero =
      state.VerifiedChains.foldl lastChainStep Time.zero
    by_cases he : state.VerifiedChains = []
    · have : reordered = [] := by
        rw [he] at hperm; exact List.Perm.eq_nil hperm
      rw [he, this]
    · have hre : reordered ≠ [] := by
        intro e; rw [e] at hperm
        exact he (List.Perm.eq_nil hperm.symm)
      obtain ⟨c1, hc1, e1⟩ := m2 he
      obtain ⟨c2, hc2, e2⟩ := r2 hre
      apply le_antisymm
      · rw [← e2]; exact m1 c2 (hperm.mem_iff.mp hc2)
      · rw [← e1]; exact r1 c1 (hperm.mem_iff.mpr hc1)
  · show [a, b].foldl lastChainStep Time.zero = earliestOf b
    simp only [List.foldl_cons, List.foldl_nil, lastChainStep_eq]
    simp [Time.zero, hab]
  · show [b, a].foldl lastChainStep Time.zero = earliestOf b
    simp only [List.foldl_cons, List.foldl_nil, lastChainStep_eq]
    simp [Time.zero, hb', not_lt.mpr (le_of_lt hab)]

/-- Witness of C6 (amended): two chains, in the order that has the later one first. -/
theorem getLastChainExpiry_max_witness :
    ((∀ chain ∈
          (stateOf [] [[certExpiring 9, certExpiring 0], [certExpiring 7]]).VerifiedChains,
        Time.IsZero (earliestOf chain) = false) ∧
      earliestOf [certExpiring 7] < earliestOf [certExpiring 9, certExpiring 0] ∧
      Time.IsZero (earliestOf [certExpiring 9, certExpiring 0]) = false) ∧
    getLastChainExpiry (stateOf [] [[certExpiring 9, certExpiring 0], [certExpiring 7]]) = 9 :=
  have h := getLastChainExpiry_max
    (stateOf [] [[certExpiring 9, certExpiring 0], [certExpiring 7]])
    [[certExpiring 7], [certExpiring 9, certExpiring 0]]
    [certExpiring 7] [certExpiring 9, certExpiring 0]
    (Or.inl (by decide)) (by decide) (by decide) (by decide)
  ⟨⟨by decide, by decide, by decide⟩, h.2.2.2.2.2.2.trans (by decide)⟩

/-! ## Hooks on a transport that has a current trace -/

theorem fire_of_current (t : transport) (ev : HookEvent) (i : Nat)
    (h : t.current = some i) :
    ∃ traces, t.fire ev = Except.ok { t with traces := traces } := by
  cases ev <;>
    simp [transport.fire, transport.DNSStart, transport.DNSDone, transport.ConnectStart,
      transport.ConnectDone, transport.GotConn, transport.GotFirstResponseByte,
      transport.TLSHandshakeStart, transport.TLSHandshakeDone, transport.updateCurrent, h]

theorem fireAll_of_current (evs : List HookEvent) (t : transport) (i : Nat)
    (h : t.current = some i) :
    ∃ traces, t.fireAll evs = Except.ok { t with traces := traces } := by
  induction evs generalizing t with
  | nil => exact ⟨t.traces, rfl⟩
  | cons ev rest ih =>
    obtain ⟨tr1, h1⟩ := fire_of_current t ev i h
    obtain ⟨tr2, h2⟩ := ih { t with traces := tr1 } h
    exact ⟨tr2, by simp only [transport.fireAll, h1, h2]⟩

/-! ## What the log and the success gauge show -/

theorem successWrite_observeDurations (probeName : String) (d : Durations) :
    (observeDurations probeName d).filterMap successWrite = [] := by
  induction d with
  | nil => simp [observeDurations]
  | cons p rest ih =>
    simp only [observeDurations, List.map_cons, List.filterMap_cons] at ih ⊢
    simp [successWrite, ih]

theorem lastInformationLabels_cons (x : Externals) (state : ConnectionState)
    (cert : Certificate) (rest : List Certificate)
    (h : state.PeerCertificates = cert :: rest) :
    lastInformationLabels x state = Except.ok
      [x.hexSum256 cert.Raw, cert.Subject, cert.Issuer, String.intercalate "," cert.DNSNames] := by
  simp [lastInformationLabels, getFingerprint, getSubject, getIssuer, getDNSNames, h]

theorem lastInformationLabels_nil (x : Externals) (state : ConnectionState)
    (h : state.PeerCertificates = []) :
    lastInformationLabels x state = Except.error Panic.indexOutOfRange := by
  simp [lastInformationLabels, getFingerprint, h]

/-- The tail of `RoundTrip` starts no probe, leaves the success gauge and the transport
alone, and panics only on a TLS state without peer certificates. -/
theorem handleResponse_spec (x : Externals) (w : World) (resp : Response) :
    probesStarted (handleResponse x w resp).world = probesStarted w ∧
    successGauge (handleResponse x w resp).world = successGauge w ∧
    (handleResponse x w resp).world.tt = w.tt ∧
    ((∀ state, resp.TLS = some state → state.PeerCertificates ≠ []) →
      (handleResponse x w resp).panicked? = none) := by
  cases hT : resp.TLS with
  | none =>
    cases hp : x.parseFloatErr (trimHTTP resp.Proto) <;>
      simp [handleResponse, hT, hp, Result.world, Result.panicked?, probesStarted,
        successGauge, startedProbe, successWrite, List.filterMap_append]
  | some state =>
    cases hc : state.PeerCertificates with
    | nil =>
      simp [handleResponse, hT, lastInformationLabels_nil x state hc, Result.world,
        Result.panicked?, probesStarted, successGauge, startedProbe, successWrite,
        List.filterMap_append, tlsGauges, hc]
    | cons cert rest =>
      cases hp : x.parseFloatErr (trimHTTP resp.Proto) <;>
        simp [handleResponse, hT, hp, lastInformationLabels_cons x state cert rest hc,
          Result.world, Result.panicked?, probesStarted, successGauge, startedProbe,
          successWrite, List.filterMap_append, tlsGauges]

/-- A round trip starts no probe, leaves the success gauge and the name of the transport
alone, leaves a current trace, and panics only on a TLS state without peer certificates. -/
theorem RoundTrip_spec (x : Externals) (w : World) (req : Request) (inner : InnerRoundTrip) :
    probesStarted (RoundTrip x w req inner).world = probesStarted w ∧
    successGauge (RoundTrip x w req inner).world = successGauge w ∧
    (RoundTrip x w req inner).world.tt.current = some w.tt.traces.length ∧
    (RoundTrip x w req inner).world.tt.name = w.tt.name ∧
    ((ClientOp.roundTrip req inner).hasCertificates = true →
      (RoundTrip x w req inner).panicked? = none) := by
  obtain ⟨traces, hf⟩ := fireAll_of_current inner.hooks
    { w.tt with current := some w.tt.traces.length,
                traces := w.tt.traces ++
                  [{ roundTripTrace.empty with tls := decide (req.Scheme = "https") }] }
    w.tt.traces.length rfl
  cases hr : inner.result with
  | error err =>
    simp [RoundTrip, hf, hr, Result.world, Result.panicked?, probesStarted, successGauge,
      startedProbe, List.filterMap_append]
  | ok resp =>
    simp only [RoundTrip, hf, hr]
    generalize hw : ({ tt := _, metrics := _, logs := _ } : World) = w1
    have hspec := handleResponse_spec x w1 resp
    have hp1 : probesStarted w1 = probesStarted w := by
      rw [← hw]; simp [probesStarted, startedProbe, List.filterMap_append]
    have hs1 : successGauge w1 = successGauge w := by
      rw [← hw]; simp [successGauge]
    have hc1 : w1.tt.current = some w.tt.traces.length := by rw [← hw]
    have hn1 : w1.tt.name = w.tt.name := by rw [← hw]
    obtain ⟨a1, a2, a3, a4⟩ := hspec
    cases hh : handleResponse x w1 resp with
    | panic w2 p =>
      rw [hh] at a1 a2 a3 a4
      simp only [Result.world] at a1 a2 a3
      refine ⟨a1.trans hp1, a2.trans hs1, by simp [Result.world, a3, hc1],
        by simp [Result.world, a3, hn1], ?_⟩
      intro hcert
      have : ∀ state, resp.TLS = some state → state.PeerCertificates ≠ [] := by
        intro state hst hnil
        simp [ClientOp.hasCertificates, hr, hst, hnil] at hcert
      have := a4 this
      simp [Result.panicked?] at this
    | ok w2 v =>
      rw [hh] at a1 a2 a3
      simp only [Result.world] at a1 a2 a3
      obtain ⟨r1, e1⟩ := v
      exact ⟨a1.trans hp1, a2.trans hs1, by simp [Result.world, a3, hc1],
        by simp [Result.world, a3, hn1], fun _ => rfl⟩

/-- The HTTP activity of a probe starts no probe and leaves the success gauge and the name
of the transport alone; it panics only on a TLS state without peer certificates; and it
leaves a current trace as soon as there was one before or it has made a round trip. -/
theorem runOps_spec (x : Externals) (ops : List ClientOp) (w : World) :
    probesStarted (runOps x w ops).world = probesStarted w ∧
    successGauge (runOps x w ops).world = successGauge w ∧
    (runOps x w ops).world.tt.name = w.tt.name ∧
    (ops.all ClientOp.hasCertificates = true →
      (runOps x w ops).panicked? = none ∧
      ((w.tt.current ≠ none ∨ ops.any ClientOp.isRoundTrip = true) →
        (runOps x w ops).world.tt.current ≠ none)) := by
  induction ops generalizing w with
  | nil => simp [runOps, Result.world, Result.panicked?]
  | cons op rest ih =>
    cases op with
    | read n =>
      obtain ⟨i1, i2, i3, i4⟩ := ih (readerWrapper_Read w n)
      simp only [runOps]
      refine ⟨i1, i2, i3, ?_⟩
      intro hall
      have hrest : rest.all ClientOp.hasCertificates = true := by
        simp only [List.all_cons, Bool.and_eq_true] at hall; exact hall.2
      obtain ⟨j1, j2⟩ := i4 hrest
      refine ⟨j1, ?_⟩
      intro hc
      apply j2
      rcases hc with hc | hc
      · exact Or.inl hc
      · simp only [List.any_cons, ClientOp.isRoundTrip, Bool.false_or] at hc
        exact Or.inr hc
    | roundTrip req inner =>
      obtain ⟨r1, r2, r3, r4, r5⟩ := RoundTrip_spec x w req inner
      simp only [runOps]
      cases hrt : RoundTrip x w req inner with
      | panic w1 p =>
        rw [hrt] at r1 r2 r3 r4 r5
        simp only [Result.world] at r1 r2 r3 r4 ⊢
        refine ⟨r1, r2, r4, ?_⟩
        intro hall
        have h1 : (ClientOp.roundTrip req inner).hasCertificates = true := by
          simp only [List.all_cons, Bool.and_eq_true] at hall; exact hall.1
        have := r5 h1
        simp [Result.panicked?] at this
      | ok w1 v =>
        rw [hrt] at r1 r2 r3 r4
        simp only [Result.world] at r1 r2 r3 r4
        obtain ⟨i1, i2, i3, i4⟩ := ih w1
        refine ⟨i1.trans r1, i2.trans r2, i3.trans r4, ?_⟩
        intro hall
        have hrest : rest.all ClientOp.hasCertificates = true := by
          simp only [List.all_cons, Bool.and_eq_true] at hall; exact hall.2
        obtain ⟨j1, j2⟩ := i4 hrest
        exact ⟨j1, fun _ => j2 (Or.inl (by rw [r3]; simp))⟩

/-- The completion callback on a transport with a current trace: it runs to the end, records
the body size, the phase aggregation and the success flag, and writes no log line. -/
theorem runDone_spec (w : World) (probeName : String) (now : Time) (result : Bool) (i : Nat)
    (h : w.tt.current = some i) :
    ∃ w1, runDone w probeName now result = Result.ok w1 () ∧
      w1.logs = w.logs ∧ w1.tt.bodySize = w.tt.bodySize ∧
      w1.metrics = w.metrics ++
          (MetricEvent.gaugeSet "probe_http_uncompressed_body_length" [probeName]
              w.tt.bodySize ::
            observeDurations probeName (aggregate w1.tt.traces) ++
            [MetricEvent.gaugeSet "probe_success" [probeName] (if result then 1 else 0)]) := by
  refine ⟨{ w with
      tt := { w.tt with traces := modifyAt (fun tr => { tr with end_ := now }) w.tt.traces i },
      metrics := w.metrics ++
          (MetricEvent.gaugeSet "probe_http_uncompressed_body_length" [probeName]
              w.tt.bodySize ::
            observeDurations probeName
              (aggregate (modifyAt (fun tr => { tr with end_ := now }) w.tt.traces i)) ++
            [MetricEvent.gaugeSet "probe_success" [probeName] (if result then 1 else 0)]) },
    ?_, rfl, rfl, rfl⟩
  simp [runDone, doTrace_done, transport.updateCurrent, h]

theorem runDone_logs (w : World) (probeName : String) (now : Time) (result : Bool) :
    (runDone w probeName now result).world.logs = w.logs := by
  cases hc : w.tt.current with
  | none => simp [runDone, doTrace_done, transport.updateCurrent, hc, Result.world]
  | some i => simp [runDone, doTrace_done, transport.updateCurrent, hc, Result.world]

theorem probesStarted_congr (w1 w2 : World) (h : w1.logs = w2.logs) :
    probesStarted w1 = probesStarted w2 := by
  simp [probesStarted, h]

/-- Whatever the probe does, `runProbe` starts exactly this one probe. -/
theorem runProbe_probesStarted (x : Externals) (w : World) (probeName : String)
    (run : ProbeRun) :
    probesStarted (runProbe x w probeName run).world = probesStarted w ++ [probeName] := by
  have h0 : probesStarted (doTrace w probeName) = probesStarted w ++ [probeName] := by
    simp [doTrace, probesStarted, startedProbe, List.filterMap_append]
  obtain ⟨o1, _, _, _⟩ := runOps_spec x run.ops (doTrace w probeName)
  simp only [runProbe]
  cases hops : runOps x (doTrace w probeName) run.ops with
  | panic w1 p =>
    rw [hops] at o1
    simp only [Result.world] at o1
    have hl := runDone_logs w1 probeName run.doneAt false
    cases hd : runDone w1 probeName run.doneAt false with
    | panic w2 q =>
      rw [hd] at hl
      simp only [hd, Result.world] at hl ⊢
      rw [probesStarted_congr w2 w1 hl, o1, h0]
    | ok w2 u =>
      rw [hd] at hl
      simp only [hd, Result.world] at hl ⊢
      rw [probesStarted_congr w2 w1 hl, o1, h0]
  | ok w1 u =>
    rw [hops] at o1
    simp only [Result.world] at o1
    cases he : run.err with
    | none =>
      simp only
      generalize hw : ({ tt := _, metrics := _, logs := _ } : World) = w2
      have hp2 : probesStarted w2 = probesStarted w1 := by
        rw [← hw]; simp [probesStarted, startedProbe, List.filterMap_append]
      have hl := runDone_logs w2 probeName run.doneAt true
      cases hd : runDone w2 probeName run.doneAt true with
      | panic w3 q =>
        rw [hd] at hl
        simp only [hd, Result.world] at hl ⊢
        rw [probesStarted_congr w3 w2 hl, hp2, o1, h0]
      | ok w3 u3 =>
        rw [hd] at hl
        simp only [hd, Result.world] at hl ⊢
        rw [probesStarted_congr w3 w2 hl, hp2, o1, h0]
    | some err =>
      simp only
      generalize hw : ({ tt := _, metrics := _, logs := _ } : World) = w2
      have hp2 : probesStarted w2 = probesStarted w1 := by
        rw [← hw]; simp [probesStarted, startedProbe, List.filterMap_append]
      have hl := runDone_logs w2 probeName run.doneAt false
      cases hd : runDone w2 probeName run.doneAt false with
      | panic w3 q =>
        rw [hd] at hl
        simp only [hd, Result.world] at hl ⊢
        rw [probesStarted_congr w3 w2 hl, hp2, o1, h0]
      | ok w3 u3 =>
        rw [hd] at hl
        simp only [hd, Result.world] at hl ⊢
        rw [probesStarted_congr w3 w2 hl, hp2, o1, h0]

/-- A probe run that makes at least one round trip, none answered over TLS without peer
certificates, is finalized: `runProbe` returns the error of the probe function, having
started this one probe, recorded the body size and the phase aggregation, and set the
success gauge to 1 when the probe returned no error and to 0 otherwise. -/
theorem runProbe_of_roundTrips (x : Externals) (w : World) (probeName : String)
    (run : ProbeRun) (h : run.roundTrips = true) :
    ∃ w1, runProbe x w probeName run = Result.ok w1 run.err ∧
      probesStarted w1 = probesStarted w ++ [probeName] ∧
      successGauge w1 = successGauge w ++ [(probeName, if run.err.isNone then 1 else 0)] ∧
      MetricEvent.gaugeSet "probe_http_uncompressed_body_length" [probeName] w1.tt.bodySize
        ∈ w1.metrics ∧
      ∀ ev ∈ observeDurations probeName (aggregate w1.tt.traces), ev ∈ w1.metrics := by
  have hps := runProbe_probesStarted x w probeName run
  simp only [ProbeRun.roundTrips, Bool.and_eq_true] at h
  obtain ⟨_, o2, _, o4⟩ := runOps_spec x run.ops (doTrace w probeName)
  obtain ⟨p1, p2⟩ := o4 h.2
  have hcur := p2 (Or.inr h.1)
  have hs0 : successGauge (doTrace w probeName) = successGauge w := by
    simp [doTrace, successGauge]
  cases hops : runOps x (doTrace w probeName) run.ops with
  | panic w1 p => rw [hops] at p1; simp [Result.panicked?] at p1
  | ok w1 u =>
    rw [hops] at hcur o2
    simp only [Result.world] at hcur o2
    obtain ⟨i, hi⟩ := Option.ne_none_iff_exists'.mp hcur
    cases he : run.err with
    | none =>
      obtain ⟨w2, hd, _, hb, hm⟩ := runDone_spec
        { w1 with logs := w1.logs ++ [LogEntry.mk "info"
          [("msg", "probe successful"), ("probe_name", probeName)]] }
        probeName run.doneAt true i hi
      have hrun : runProbe x w probeName run = Result.ok w2 none := by
        simp only [runProbe, hops, he, hd]
      rw [hrun] at hps
      refine ⟨w2, hrun, hps, ?_, ?_, ?_⟩
      · simp only [successGauge] at o2 hs0 ⊢
        rw [hm]
        simp [List.filterMap_append, successWrite_observeDurations, successWrite, o2, hs0]
      · rw [hm, hb]; simp
      · intro ev hev
        rw [hm]
        simp [hev]
    | some err =>
      obtain ⟨w2, hd, _, hb, hm⟩ := runDone_spec
        { w1 with logs := w1.logs ++ [LogEntry.mk "error"
          [("msg", "probe failed"), ("probe_name", probeName), ("err", err.Error)]] }
        probeName run.doneAt false i hi
      have hrun : runProbe x w probeName run = Result.ok w2 (some err) := by
        simp only [runProbe, hops, he, hd]
      rw [hrun] at hps
      refine ⟨w2, hrun, hps, ?_, ?_, ?_⟩
      · simp only [successGauge] at o2 hs0 ⊢
        rw [hm]
        simp [List.filterMap_append, successWrite_observeDurations, successWrite, o2, hs0]
      · rw [hm, hb]; simp
      · intro ev hev
        rw [hm]
        simp [hev]

/-! ## The query step -/

theorem length_filterMap_err (now : Time) (probes : List queryProbe) :
    (probes.filterMap fun p => (p.f now).err).length = failingProbes now probes := by
  induction probes with
  | nil => rfl
  | cons p rest ih =>
    simp only [failingProbes] at ih ⊢
    cases he : (p.f now).err <;> simp [List.filterMap_cons, List.filter_cons, he, ih]

/-- The loop over the catalog, when every probe run is finalized: every probe is run once,
in catalog order, and every error is collected. -/
theorem queryLoop_of_roundTrips (x : Externals) (now : Time) (probes : List queryProbe)
    (h : ∀ p ∈ probes, (p.f now).roundTrips = true) (w : World) (acc : MultiError) :
    ∃ w1, queryLoop x now w acc probes =
        Result.ok w1 (acc ++ probes.filterMap fun p => (p.f now).err) ∧
      probesStarted w1 = probesStarted w ++ probes.map (fun p => p.name) ∧
      successGauge w1 = successGauge w ++
        probes.map (fun p => (p.name, if (p.f now).err.isNone then 1 else 0)) := by
  induction probes generalizing w acc with
  | nil => exact ⟨w, by simp [queryLoop], by simp, by simp⟩
  | cons p rest ih =>
    obtain ⟨w1, h1, h2, h3, _, _⟩ :=
      runProbe_of_roundTrips x w p.name (p.f now) (h p (List.mem_cons_self _ _))
    obtain ⟨w2, g1, g2, g3⟩ := ih (fun q hq => h q (List.mem_cons_of_mem _ hq)) w1
      (MultiError.Add acc (p.f now).err)
    refine ⟨w2, ?_, ?_, ?_⟩
    · simp only [queryLoop, h1, g1]
      cases he : (p.f now).err <;> simp [MultiError.Add, List.filterMap_cons, he]
    · rw [g2, h2]; simp
    · rw [g3, h3]; simp

/-- The cycle when the ingest probe succeeds and every probe run is finalized: all the
probes of the catalog are run once each, in catalog order, whatever the earlier ones
returned; the cycle error is nil exactly when no query probe failed, and otherwise its
message gives the number of failing probes. -/
theorem testPyroscopeCell_of_roundTrips (x : Externals) (ce : canaryExporter) (w : World)
    (now : Time) (hing : (ce.testIngestProfile now).roundTrips = true)
    (hok : (ce.testIngestProfile now).err = none)
    (h : ∀ p ∈ ce.queryProbes, (p.f now).roundTrips = true) :
    ∃ w1, testPyroscopeCell x ce w now = Result.ok w1
        (if failingProbes now ce.queryProbes = 0 then none
         else some (GoError.errorString (toString (failingProbes now ce.queryProbes) ++
           " error(s) reported from query probes"))) ∧
      probesStarted w1 = probesStarted w ++ "ingest" :: ce.queryProbes.map (fun p => p.name) ∧
      successGauge w1 = successGauge w ++ ("ingest", 1) ::
        ce.queryProbes.map (fun p => (p.name, if (p.f now).err.isNone then 1 else 0)) := by
  obtain ⟨w1, h1, h2, h3, _, _⟩ :=
    runProbe_of_roundTrips x w "ingest" (ce.testIngestProfile now) hing
  rw [hok] at h1 h3
  by_cases hdelay : ce.TestDelay > 0
  · obtain ⟨w2, g1, g2, g3⟩ := queryLoop_of_roundTrips x now ce.queryProbes h
      { w1 with logs := w1.logs ++ [LogEntry.mk "info"
          [("msg", "waiting before running a query"), ("delay", toString ce.TestDelay)]] } []
    refine ⟨w2, ?_, ?_, ?_⟩
    · simp only [testPyroscopeCell, h1, hdelay, if_true, g1, List.nil_append]
      simp only [MultiError.Err, length_filterMap_err]
      by_cases hk : failingProbes now ce.queryProbes = 0 <;> simp [hk]
    · rw [g2]
      simp [probesStarted, startedProbe, List.filterMap_append] at h2 ⊢
      rw [h2]; simp
    · rw [g3]
      simp [successGauge] at h3 ⊢
      rw [h3]; simp
  · obtain ⟨w2, g1, g2, g3⟩ := queryLoop_of_roundTrips x now ce.queryProbes h w1 []
    refine ⟨w2, ?_, ?_, ?_⟩
    · simp only [testPyroscopeCell, h1, hdelay, if_false, g1, List.nil_append]
      simp only [MultiError.Err, length_filterMap_err]
      by_cases hk : failingProbes now ce.queryProbes = 0 <;> simp [hk]
    · rw [g2, h2]; simp
    · rw [g3, h3]; simp

/-- C3, evaluated at a failing catalog. The ingest probe succeeds and two of the five query
probes return an error, the second of them (`q2`) before it has sent any request: the
completion callback of `q2` dereferences the nil `current`, the cycle panics instead of
returning an error, and `q3`, `q4`, `q5` are never started. With the same outcomes and a
round trip made by `q2`, all five probes are started once and the cycle error is
"2 error(s) reported from query probes". -/
theorem testPyroscopeCell_stops_at_probe_without_round_trip :
    succeedingRun.err = none ∧
    failingProbes 0 fiveProbesOneSilent = 2 ∧
    (testPyroscopeCell plainExternals (exporterOf succeedingRun fiveProbesOneSilent)
      World.initial 0).panicked? = some Panic.nilPointerDereference ∧
    (testPyroscopeCell plainExternals (exporterOf succeedingRun fiveProbesOneSilent)
      World.initial 0).value? = none ∧
    probesStarted (testPyroscopeCell plainExternals
      (exporterOf succeedingRun fiveProbesOneSilent) World.initial 0).world =
        ["ingest", "q1", "q2"] ∧
    failingProbes 0 fiveProbes = 2 ∧
    (testPyroscopeCell plainExternals (exporterOf succeedingRun fiveProbes)
      World.initial 0).value? =
        some (some (GoError.errorString "2 error(s) reported from query probes")) ∧
    probesStarted (testPyroscopeCell plainExternals (exporterOf succeedingRun fiveProbes)
      World.initial 0).world = ["ingest", "q1", "q2", "q3", "q4", "q5"] := by
  decide

/-! ## Ingest failure -/

theorem runProbe_value (x : Externals) (w w1 : World) (probeName : String) (run : ProbeRun)
    (v : Option GoError) (h : runProbe x w probeName run = Result.ok w1 v) : v = run.err := by
  simp only [runProbe] at h
  cases hops : runOps x (doTrace w probeName) run.ops with
  | panic w2 p =>
    simp only [hops] at h
    cases hd : runDone w2 probeName run.doneAt false <;> simp [hd] at h
  | ok w2 u =>
    simp only [hops] at h
    cases he : run.err with
    | none =>
      simp only [he] at h
      generalize hw : ({ tt := _, metrics := _, logs := _ } : World) = w3 at h
      cases hd : runDone w3 probeName run.doneAt true with
      | panic w4 q => simp [hd] at h
      | ok w4 u4 => simp only [hd, Result.ok.injEq] at h; exact h.2.symm
    | some err =>
      simp only [he] at h
      generalize hw : ({ tt := _, metrics := _, logs := _ } : World) = w3 at h
      cases hd : runDone w3 probeName run.doneAt false with
      | panic w4 q => simp [hd] at h
      | ok w4 u4 => simp only [hd, Result.ok.injEq] at h; exact h.2.symm

/-- Counterexample to C4 as stated: the ingest probe returns the error `boom`, and the cycle
error is not that error but a new one that wraps it, with another message. -/
theorem testPyroscopeCell_ingest_error_is_wrapped :
    failingRun.err = some (GoError.errorString "boom") ∧
    (testPyroscopeCell plainExternals (exporterOf failingRun fiveProbes)
      World.initial 0).value? =
        some (some (GoError.wrapError "error during ingestion: boom"
          (GoError.errorString "boom"))) ∧
    (testPyroscopeCell plainExternals (exporterOf failingRun fiveProbes)
      World.initial 0).value? ≠ some (some (GoError.errorString "boom")) ∧
    (GoError.wrapError "error during ingestion: boom" (GoError.errorString "boom")).Error ≠
      (GoError.errorString "boom").Error := by
  decide

/-- C4 (amended). Ingest failure aborts the cycle: for every catalog of query probes and
every error `e` returned by the ingest probe, `testPyroscopeCell` starts the ingest probe and
no query probe; and when the ingest run is finalized (it made a round trip, none answered over
TLS without peer certificates) the cycle error it returns is `e` wrapped by `fmt.Errorf`: its
message is "error during ingestion: " followed by the message of `e`, and it unwraps
to `e`. -/
theorem testPyroscopeCell_ingest_failure (x : Externals) (ce : canaryExporter) (w : World)
    (now : Time) (e : GoError) (he : (ce.testIngestProfile now).err = some e) :
    probesStarted (testPyroscopeCell x ce w now).world = probesStarted w ++ ["ingest"] ∧
    ((ce.testIngestProfile now).roundTrips = true →
      (testPyroscopeCell x ce w now).value? =
        some (some (GoError.wrapError ("error during ingestion: " ++ e.Error) e))) ∧
    (GoError.wrapError ("error during ingestion: " ++ e.Error) e).Error =
      "error during ingestion: " ++ e.Error ∧
    (GoError.wrapError ("error during ingestion: " ++ e.Error) e).Unwrap = some e := by
  refine ⟨?_, ?_, rfl, rfl⟩
  · have hps := runProbe_probesStarted x w "ingest" (ce.testIngestProfile now)
    cases hr : runProbe x w "ingest" (ce.testIngestProfile now) with
    | panic w1 p =>
      rw [hr] at hps
      simpa [testPyroscopeCell, hr, Result.world] using hps
    | ok w1 v =>
      have hv := runProbe_value x w w1 "ingest" _ v hr
      rw [he] at hv
      subst hv
      rw [hr] at hps
      simpa [testPyroscopeCell, hr, Result.world] using hps
  · intro hrt
    obtain ⟨w1, h1, _⟩ := runProbe_of_roundTrips x w "ingest" (ce.testIngestProfile now) hrt
    rw [he] at h1
    simp [testPyroscopeCell, h1, Result.value?]

/-- Witness of C4 (amended). -/
theorem testPyroscopeCell_ingest_failure_witness :
    ((exporterOf failingRun fiveProbes).testIngestProfile 0).err =
      some (GoError.errorString "boom") ∧
    probesStarted (testPyroscopeCell plainExternals (exporterOf failingRun fiveProbes)
      World.initial 0).world = probesStarted World.initial ++ ["ingest"] :=
  ⟨rfl, (testPyroscopeCell_ingest_failure plainExternals (exporterOf failingRun fiveProbes)
    World.initial 0 (GoError.errorString "boom") rfl).1⟩

/-! ## Finalization -/

/-- C9, evaluated at the failing runs. For a probe function that returns, with an error or
without one, before any round trip was made on the instrumented transport, the completion
callback panics on the nil `current` at its first statement: `runProbe` does not return,
and neither the body size, nor a duration, nor the success gauge is recorded. -/
theorem runProbe_without_round_trip_panics (x : Externals) (w : World) (probeName : String)
    (err : Option GoError) (doneAt : Time) (result : Bool) :
    doTrace_done (newInstrumentedTransport probeName) probeName doneAt result =
      Except.error Panic.nilPointerDereference ∧
    (runProbe x w probeName { ops := [], err := err, doneAt := doneAt }).panicked? =
      some Panic.nilPointerDereference ∧
    (runProbe x w probeName { ops := [], err := err, doneAt := doneAt }).value? = none ∧
    (runProbe x w probeName { ops := [], err := err, doneAt := doneAt }).world.metrics =
      w.metrics := by
  refine ⟨rfl, ?_, ?_, ?_⟩ <;>
    cases err <;>
      simp [runProbe, runOps, doTrace, runDone, doTrace_done, transport.updateCurrent,
        newInstrumentedTransport, Result.panicked?, Result.value?, Result.world]

/-! ## Certificate extraction -/

theorem handleResponse_lastInformation (x : Externals) (w : World) (resp : Response)
    (state : ConnectionState) (cert : Certificate) (rest : List Certificate)
    (hT : resp.TLS = some state) (hc : state.PeerCertificates = cert :: rest) :
    MetricEvent.gaugeSet "probe_ssl_last_chain_info"
      [x.hexSum256 cert.Raw, cert.Subject, cert.Issuer, String.intercalate "," cert.DNSNames] 1
      ∈ (handleResponse x w resp).world.metrics := by
  cases hp : x.parseFloatErr (trimHTTP resp.Proto) <;>
    simp [handleResponse, hT, hp, lastInformationLabels_cons x state cert rest hc,
      Result.world]

/-- Counterexample to C10 as stated: an HTTPS round trip answered over a TLS connection
whose peer presented no certificate panics with an index out of range, in `getFingerprint`
as in the three other getters. -/
theorem RoundTrip_without_peer_certificate_panics :
    (tlsResponse []).TLS = some (stateOf [] []) ∧
    (stateOf [] []).PeerCertificates = [] ∧
    getFingerprint plainExternals.hexSum256 (stateOf [] []) =
      Except.error Panic.indexOutOfRange ∧
    getSubject (stateOf [] []) = Except.error Panic.indexOutOfRange ∧
    getIssuer (stateOf [] []) = Except.error Panic.indexOutOfRange ∧
    getDNSNames (stateOf [] []) = Except.error Panic.indexOutOfRange ∧
    (RoundTrip plainExternals (doTrace World.initial "ingest") httpsRequest
      (httpsRoundTrip (tlsResponse []))).panicked? = some Panic.indexOutOfRange := by
  decide

/-- C10 (amended). Certificate extraction is not guarded against an empty peer-certificate
list: `getFingerprint`, `getSubject`, `getIssuer` and `getDNSNames` index the first
certificate unconditionally. For every TLS connection state whose peer presented zero
certificates each of them panics with an index out of range, and so does the TLS response
handling of `RoundTrip`; for every state with at least one peer certificate they return the
data of the first certificate, and `RoundTrip` does not panic and labels the gauge
`probe_ssl_last_chain_info` with them. -/
theorem RoundTrip_certificate_extraction (x : Externals) (w : World) (req : Request)
    (inner : InnerRoundTrip) (resp : Response) (state : ConnectionState)
    (hr : inner.result = Except.ok resp) (hT : resp.TLS = some state) :
    (state.PeerCertificates = [] →
      getFingerprint x.hexSum256 state = Except.error Panic.indexOutOfRange ∧
      getSubject state = Except.error Panic.indexOutOfRange ∧
      getIssuer state = Except.error Panic.indexOutOfRange ∧
      getDNSNames state = Except.error Panic.indexOutOfRange ∧
      (RoundTrip x w req inner).panicked? = some Panic.indexOutOfRange) ∧
    (∀ cert rest, state.PeerCertificates = cert :: rest →
      getFingerprint x.hexSum256 state = Except.ok (x.hexSum256 cert.Raw) ∧
      getSubject state = Except.ok cert.Subject ∧
      getIssuer state = Except.ok cert.Issuer ∧
      getDNSNames state = Except.ok (String.intercalate "," cert.DNSNames) ∧
      (RoundTrip x w req inner).panicked? = none ∧
      MetricEvent.gaugeSet "probe_ssl_last_chain_info"
        [x.hexSum256 cert.Raw, cert.Subject, cert.Issuer,
          String.intercalate "," cert.DNSNames] 1
        ∈ (RoundTrip x w req inner).world.metrics) := by
  obtain ⟨traces, hf⟩ := fireAll_of_current inner.hooks
    { w.tt with current := some w.tt.traces.length,
                traces := w.tt.traces ++
                  [{ roundTripTrace.empty with tls := decide (req.Scheme = "https") }] }
    w.tt.traces.length rfl
  constructor
  · intro hnil
    refine ⟨by simp [getFingerprint, hnil], by simp [getSubject, hnil],
      by simp [getIssuer, hnil], by simp [getDNSNames, hnil], ?_⟩
    simp [RoundTrip, hf, hr, handleResponse, hT, lastInformationLabels_nil x state hnil,
      Result.panicked?]
  · intro cert rest hc
    refine ⟨by simp [getFingerprint, hc], by simp [getSubject, hc],
      by simp [getIssuer, hc], by simp [getDNSNames, hc], ?_, ?_⟩
    · apply (RoundTrip_spec x w req inner).2.2.2.2
      simp [ClientOp.hasCertificates, hr, hT, hc]
    · simp only [RoundTrip, hf, hr]
      generalize hw : ({ tt := _, metrics := _, logs := _ } : World) = w1
      have hmem := handleResponse_lastInformation x w1 resp state cert rest hT hc
      cases hh : handleResponse x w1 resp with
      | panic w2 p => rw [hh] at hmem; simpa [Result.world] using hmem
      | ok w2 v => rw [hh] at hmem; simpa [Result.world] using hmem

/-- Witness of C10 (amended): a TLS response with one peer certificate. -/
theorem RoundTrip_certificate_extraction_witness :
    ((httpsRoundTrip (tlsResponse [certExpiring 7])).result =
        Except.ok (tlsResponse [certExpiring 7]) ∧
      (tlsResponse [certExpiring 7]).TLS = some (stateOf [certExpiring 7] [])) ∧
    (RoundTrip plainExternals (doTrace World.initial "ingest") httpsRequest
      (httpsRoundTrip (tlsResponse [certExpiring 7]))).panicked? = none :=
  ⟨⟨rfl, rfl⟩,
    ((RoundTrip_certificate_extraction plainExternals (doTrace World.initial "ingest")
      httpsRequest (httpsRoundTrip (tlsResponse [certExpiring 7]))
      (tlsResponse [certExpiring 7]) (stateOf [certExpiring 7] []) rfl rfl).2
      (certExpiring 7) [] rfl).2.2.2.2.1⟩

end CanaryExporter

namespace Ruler

open CanaryExporter

/-! ## The per-tenant cache -/

/-- A value that is held and has not expired is returned as it is: no call of `initFunc`,
no change of the cache. -/
theorem tenantCache_get_fresh {Rule : Type} (c : tenantCache Rule) (e : Effects) (now : Time)
    (v : List Rule) (hv : c.value = some v) (hnow : Time.Before now c.ttl = true) :
    c.getAt e now = (some v, c, e) := by
  simp [tenantCache.getAt, tenantCache.get, hv, hnow]

/-- With no value held, or at an instant after the expiry, `get` makes exactly one call of
`initFunc`; when the call succeeds the result is stored with `ttl = now + one minute` and
returned, when it fails the value and the expiry are kept. -/
theorem tenantCache_get_refresh {Rule : Type} (c : tenantCache Rule) (e : Effects)
    (now : Time) (h : c.value = none ∨ Time.After now c.ttl = true) :
    (c.getAt e now).2.2.initCalls = e.initCalls + 1 ∧
    (∀ value, c.initFunc e.initCalls = Except.ok value →
      (c.getAt e now).1 = value ∧ (c.getAt e now).2.1.value = value ∧
      (c.getAt e now).2.1.ttl = Time.Add now rulesExpiryTime ∧
      (c.getAt e now).2.1.initFunc = c.initFunc) ∧
    (∀ err, c.initFunc e.initCalls = Except.error err →
      (c.getAt e now).1 = c.value ∧ (c.getAt e now).2.1 = c) := by
  have hfast : (c.value.isSome && Time.Before now c.ttl) = false := by
    rcases h with h | h
    · simp [h]
    · have h1 : c.ttl < now := by simpa [Time.After] using h
      have h2 : Time.Before now c.ttl = false := by
        simp only [Time.Before, decide_eq_false_iff_not]
        exact not_lt.mpr (le_of_lt h1)
      simp [h2]
  have hslow : (c.value.isNone || Time.After now c.ttl) = true := by
    rcases h with h | h
    · simp [h]
    · simp [h]
  cases hi : c.initFunc e.initCalls with
  | error err => simp [tenantCache.getAt, tenantCache.get, hfast, hslow, hi]
  | ok value => simp [tenantCache.getAt, tenantCache.get, hfast, hslow, hi]

/-- While the value held has not expired, any number of calls of `get` return it and leave
the cache and the count of calls of `initFunc` as they are. -/
theorem tenantCache_getAll_held {Rule : Type} (c : tenantCache Rule) (e : Effects)
    (v : List Rule) (later : List Time) (hv : c.value = some v)
    (h : ∀ t ∈ later, Time.Before t c.ttl = true) :
    c.getAll e later = (later.map fun _ => some v, c, e) := by
  induction later with
  | nil => rfl
  | cons t rest ih =>
    have ht := tenantCache_get_fresh c e t v hv (h t (List.mem_cons_self _ _))
    have hrest := ih fun u hu => h u (List.mem_cons_of_mem _ hu)
    simp [tenantCache.getAll, ht, hrest]

/-- Away from the two cases that `get` misses (the instant equal to the expiry of a held
value, and a service that answers with a nil slice), `get` does what its comment says: a
held value that has not expired is returned without a call; otherwise exactly one call of
`initFunc` is made, and a successful result is stored with `ttl = now + one minute`,
returned, and returned again by every later call before that expiry without a new call. -/
theorem tenantCache_get_off_boundary {Rule : Type} (c : tenantCache Rule) (e : Effects)
    (now : Time) (later : List Time) (hb : c.value = none ∨ now ≠ c.ttl)
    (hlater : ∀ t ∈ later, Time.Before t (Time.Add now rulesExpiryTime) = true) :
    ((c.value.isSome = true ∧ Time.Before now c.ttl = true) →
      c.getAt e now = (c.value, c, e)) ∧
    (¬ (c.value.isSome = true ∧ Time.Before now c.ttl = true) →
      (c.getAt e now).2.2.initCalls = e.initCalls + 1 ∧
      ∀ v, c.initFunc e.initCalls = Except.ok (some v) →
        (c.getAt e now).1 = some v ∧ (c.getAt e now).2.1.value = some v ∧
        (c.getAt e now).2.1.ttl = Time.Add now rulesExpiryTime ∧
        (c.getAt e now).2.1.getAll (c.getAt e now).2.2 later =
          (later.map fun _ => some v, (c.getAt e now).2.1, (c.getAt e now).2.2)) := by
  constructor
  · rintro ⟨hs, hn⟩
    obtain ⟨v, hv⟩ := Option.isSome_iff_exists.mp hs
    rw [tenantCache_get_fresh c e now v hv hn, hv]
  · intro hnot
    have hcase : c.value = none ∨ Time.After now c.ttl = true := by
      rcases hb with hb | hb
      · exact Or.inl hb
      · cases hv : c.value with
        | none => exact Or.inl rfl
        | some v =>
          right
          have hnb : ¬ Time.Before now c.ttl = true := fun hn => hnot ⟨by simp [hv], hn⟩
          have hle : c.ttl ≤ now := by
            simpa [Time.Before] using hnb
          have hlt : c.ttl < now := lt_of_le_of_ne hle (Ne.symm hb)
          simpa [Time.After] using hlt
    obtain ⟨h1, h2, _⟩ := tenantCache_get_refresh c e now hcase
    refine ⟨h1, fun v hok => ?_⟩
    obtain ⟨r1, r2, r3, _⟩ := h2 (some v) hok
    refine ⟨r1, r2, r3, ?_⟩
    apply tenantCache_getAll_held _ _ v later r2
    intro t ht
    rw [r3]
    exact hlater t ht

/-- C11, evaluated where `get` departs from its comment. A cache that holds a value whose
expiry is the current instant: the value has expired (`now` is not before `ttl`), yet `get`
makes no call of `initFunc` and returns the held value, the cache unchanged; one nanosecond
later it makes the call. And a service that answers with a nil slice and no error: the
result is stored with `ttl = now + one minute`, but the next `get`, before that expiry,
calls `initFunc` again. -/
theorem tenantCache_get_at_ttl_makes_no_call {Rule : Type} (v : List Rule) (ttl now : Time)
    (initFunc : Nat → Except GoError (Option (List Rule))) (e : Effects) :
    Time.Before ttl ttl = false ∧
    tenantCache.getAt (tenantCache.mk (some v) ttl initFunc) e ttl =
      (some v, tenantCache.mk (some v) ttl initFunc, e) ∧
    (heldCache.getAt Effects.none 100).1 = some [1] ∧
    (heldCache.getAt Effects.none 100).2.2.initCalls = 0 ∧
    (heldCache.getAt Effects.none 101).1 = some [2] ∧
    (heldCache.getAt Effects.none 101).2.2.initCalls = 1 ∧
    ((tenantCache.mk (none : Option (List Rule)) ttl fun _ => Except.ok none).getAt e
      now).2.2.initCalls = e.initCalls + 1 ∧
    ((tenantCache.mk (none : Option (List Rule)) ttl fun _ => Except.ok none).getAt e
      now).2.1.ttl = Time.Add now rulesExpiryTime ∧
    Time.Before now (Time.Add now rulesExpiryTime) = true ∧
    ((tenantCache.mk (none : Option (List Rule)) ttl fun _ => Except.ok none).getAll e
      [now, now]).2.2.initCalls = e.initCalls + 2 ∧
    (nilServiceCache.getAll Effects.none [5, 6, 7]).1 = [none, none, none] ∧
    (nilServiceCache.getAll Effects.none [5, 6, 7]).2.2.initCalls = 3 := by
  refine ⟨by simp [Time.Before], ?_, by decide, by decide, by decide, by decide, ?_, ?_, ?_,
    ?_, by decide, by decide⟩
  · simp [tenantCache.getAt, tenantCache.get, Time.Before, Time.After]
  · simp [tenantCache.getAt, tenantCache.get]
  · simp [tenantCache.getAt, tenantCache.get]
  · simp [Time.Before, Time.Add, rulesExpiryTime]
  · simp [tenantCache.getAll, tenantCache.getAt, tenantCache.get]

end Ruler
